import Mathlib

/-!
The cpoll library: the Winsock emulation of the epoll interface.

A shallow embedding of `build/vs2013/posix/cpoll/cpoll.cpp` (with the
constants of `cpoll.h`), followed by theorems about it.

* `int` values are `Int`; where the source relies on `int` overflow
  (`cpoll_create`) the arithmetic is wrapped explicitly by `wrap32`.
* `unsigned int` event masks and the `cpoll_data_t` tag are `Nat`.
* `std::map<int, cp_internal> cp_data` is a function `Int → Option cp_internal`
  (`none` is `find(..) == end()`), `std::vector<fd_t>` is a `List fd_t`.
* The global variables `cp_next_id` and `cp_data` form the record `State`;
  every API function takes the state and returns its `int` result with the
  new state.
* The Winsock calls made by `cpoll_wait` are an oracle (`Native`) for what
  they return and a record (`wsa_t`) for what they register.
-/

set_option linter.unusedVariables false

namespace Cpoll

/-! ## Constants -/

/-- Enumerator of `enum CPOLL_EVENTS` in cpoll.h (WIN32 branch). -/
def CPOLLIN : Nat := 0x0001
/-- See `CPOLLIN`. -/
def CPOLLOUT : Nat := 0x0002
/-- See `CPOLLIN`. -/
def CPOLLRDHUP : Nat := 0x0004
/-- See `CPOLLIN`. -/
def CPOLLPRI : Nat := 0x0008
/-- See `CPOLLIN`. -/
def CPOLLERR : Nat := 0x0010
/-- See `CPOLLIN`. -/
def CPOLLHUP : Nat := 0x0020
/-- See `CPOLLIN`. -/
def CPOLLET : Nat := 0x0040
/-- See `CPOLLIN`. -/
def CPOLLONESHOT : Nat := 0x0080

/-- Enumerator of `enum CPOLL_OPCODES` in cpoll.h: the enumerators are numbered
0, 1, 2 in declaration order (ADD, DEL, MOD). -/
def CPOLL_CTL_ADD : Int := 0
/-- See `CPOLL_CTL_ADD`. -/
def CPOLL_CTL_DEL : Int := 1
/-- See `CPOLL_CTL_ADD`. -/
def CPOLL_CTL_MOD : Int := 2

/-- Winsock2.h network event bits used by the source. -/
def FD_READ : Nat := 0x01
/-- See `FD_READ`. -/
def FD_WRITE : Nat := 0x02
/-- See `FD_READ`. -/
def FD_CONNECT : Nat := 0x10
/-- See `FD_READ`. -/
def FD_CLOSE : Nat := 0x20

/-- Winsock2.h: the value `WSAWaitForMultipleEvents` returns when the slice
elapsed without a signal (`WAIT_TIMEOUT`, 258). -/
def WSA_WAIT_TIMEOUT : Nat := 258
/-- Winsock2.h: the base of the "event k signalled" return values. -/
def WSA_WAIT_EVENT_0 : Nat := 0
/-- Winsock2.h: the failure return value of `WSAWaitForMultipleEvents`. -/
def WSA_WAIT_FAILED : Nat := 0xFFFFFFFF

/-! ## Machine integers -/

/-- The value of a mathematical integer stored in a 32-bit two's complement
`int`. -/
def wrap32 (x : Int) : Int := (x + 2147483648) % 4294967296 - 2147483648

/-- Largest `int`. -/
def INT_MAX : Int := 2147483647

/-- Conversion of an `int` to the 32-bit `size_type` of the WIN32 build. -/
def to_size_type (e : Int) : Nat := (e % 4294967296).toNat

/-! ## Data model -/

/-- The `struct cpoll_event`: the event mask and the user data (`cpoll_data_t`,
a union read and written only through `data.ptr` by the source). -/
structure cpoll_event where
  events : Nat
  data : Nat
deriving DecidableEq, Repr

/-- The `struct fd_t`: a watched socket with its event record. -/
structure fd_t where
  fd : Int
  event : cpoll_event
deriving DecidableEq, Repr

/-- The `typedef std::vector<fd_t> cp_internal`. -/
abbrev cp_internal := List fd_t

/-- The globals `cp_next_id` and `cp_data`. -/
structure State where
  cp_next_id : Int
  cp_data : Int → Option cp_internal

/-- Assignment `cp_data[k] = v`. -/
def map_set (m : Int → Option cp_internal) (k : Int) (v : cp_internal) :
    Int → Option cp_internal :=
  fun j => if j = k then some v else m j

/-- Call `cp_data.erase(k)`. -/
def map_erase (m : Int → Option cp_internal) (k : Int) : Int → Option cp_internal :=
  fun j => if j = k then none else m j

/-- The globals as the loader leaves them: zero-initialised counter, empty map. -/
def program_start : State := { cp_next_id := 0, cp_data := fun _ => none }

/-! ## Interest/result codec -/

/-- Function `get_wsa_mask`: every `mask |= 0` branch of the source leaves `mask`
as it is. -/
def get_wsa_mask (cpoll_events : Nat) : Nat :=
  let mask := 0
  let mask := if cpoll_events &&& CPOLLIN ≠ 0 then mask ||| FD_READ else mask
  let mask := if cpoll_events &&& CPOLLOUT ≠ 0 then mask ||| FD_WRITE else mask
  let mask := if cpoll_events &&& CPOLLRDHUP ≠ 0 then mask ||| 0 else mask
  let mask := if cpoll_events &&& CPOLLPRI ≠ 0 then mask ||| 0 else mask
  let mask := if cpoll_events &&& CPOLLERR ≠ 0 then mask ||| 0 else mask
  let mask := if cpoll_events &&& CPOLLHUP ≠ 0 then mask ||| FD_CLOSE else mask
  let mask := if cpoll_events &&& CPOLLET ≠ 0 then mask ||| 0 else mask
  mask

/-- Function `get_cp_mask`, applied to `wsa_events->lNetworkEvents`. -/
def get_cp_mask (lNetworkEvents : Nat) : Nat :=
  let mask := 0
  let mask := if lNetworkEvents &&& FD_READ ≠ 0 then mask ||| CPOLLIN else mask
  let mask := if lNetworkEvents &&& FD_WRITE ≠ 0 then mask ||| CPOLLOUT else mask
  let mask := if lNetworkEvents &&& FD_CLOSE ≠ 0 then mask ||| CPOLLHUP else mask
  mask

/-! ## Poll-set manager -/

/-- Function `cpoll_startup`: resets the counter (the Winsock start-up itself is outside
the model). -/
def cpoll_startup (s : State) : State := { s with cp_next_id := 0 }

/-- The `while` loop of `cpoll_create` (lines 128-136), started with
`cp_next_id = id`; the result is the value of `cp_next_id` when the loop is
left. The guard `cp_next_id < (cp_next_id + 1)` is evaluated in wrapped
32-bit arithmetic. -/
def create_scan (cp_data : Int → Option cp_internal) (id : Int) : Int :=
  if id < wrap32 (id + 1) then
    if (cp_data id).isNone then id
    else create_scan cp_data (wrap32 (id + 1))
  else id
termination_by (INT_MAX - id).toNat
decreasing_by
  simp only [wrap32, INT_MAX] at *
  omega

/-- Function `cpoll_create` (lines 109-148). -/
def cpoll_create (s : State) (size : Int) : Int × State :=
  if size < 0 then (-1, s)
  else
    let id := wrap32 (s.cp_next_id + 1)
    let id := if id > wrap32 (id + 1) then 0 else id
    let id := create_scan s.cp_data id
    if id < 0 then (-1, { s with cp_next_id := id })
    else (id, { cp_next_id := id, cp_data := map_set s.cp_data id [] })

/-- Function `cpoll_close` (lines 343-353). -/
def cpoll_close (s : State) (cpfd : Int) : Int × State :=
  if cpfd < 1 ∨ (s.cp_data cpfd).isNone then (-1, s)
  else (0, { s with cp_data := map_erase s.cp_data cpfd })

/-- Function `cpoll_cleanup` (the Winsock clean-up itself is outside the model). -/
def cpoll_cleanup (s : State) : State := { s with cp_data := fun _ => none }

/-! ## Descriptor registry -/

/-- The scan of the `CPOLL_CTL_ADD` branch (lines 187-194), at index `i` with
`k = cpi.size() - i` iterations left: `true` when it leaves through
`return -1` (some `cpi[j].fd == fd`), `false` when the loop runs out. -/
def ctl_add_scan (cpi : cp_internal) (fd : Int) : Nat → Nat → Bool
  | 0, _ => false
  | k + 1, i =>
    match cpi[i]? with
    | none => false
    | some f => if f.fd = fd then true else ctl_add_scan cpi fd k (i + 1)

/-- The loop of the `CPOLL_CTL_MOD` branch (lines 207-216), at index `i` with
`k = cpi.size() - i` iterations left: the vector after the assignment when it
leaves through `return 0`, `none` when the loop runs out. -/
def ctl_mod_loop (cpi : cp_internal) (fd : Int) (event : cpoll_event) :
    Nat → Nat → Option cp_internal
  | 0, _ => none
  | k + 1, i =>
    match cpi[i]? with
    | none => none
    | some f =>
      if f.fd = fd then
        some (cpi.set i
          { fd := f.fd,
            event := { events := (event.events ||| CPOLLHUP) ||| CPOLLERR,
                       data := event.data } })
      else ctl_mod_loop cpi fd event k (i + 1)

/-- The iterator loop of the `CPOLL_CTL_DEL` branch (lines 223-229), with the
iterator at index `i` and `k = cpi.size() - i` elements left: the vector after
`erase` when it leaves through `return 0`, `none` when the loop runs out. -/
def ctl_del_loop (cpi : cp_internal) (fd : Int) : Nat → Nat → Option cp_internal
  | 0, _ => none
  | k + 1, i =>
    match cpi[i]? with
    | none => none
    | some f => if f.fd = fd then some (cpi.eraseIdx i) else ctl_del_loop cpi fd k (i + 1)

/-- Function `cpoll_ctl` (lines 171-245). The `event` pointer is taken to be
valid, and the parameter is its pointee. -/
def cpoll_ctl (s : State) (cpfd opcode fd : Int) (event : cpoll_event) : Int × State :=
  if cpfd < 0 then (-1, s)
  else
    match s.cp_data cpfd with
    | none => (-1, s)
    | some cpi =>
      if opcode = CPOLL_CTL_ADD then
        if ctl_add_scan cpi fd cpi.length 0 then (-1, s)
        else
          let f : fd_t :=
            { fd := fd,
              event := { events := (event.events ||| CPOLLHUP) ||| CPOLLERR,
                         data := event.data } }
          (0, { s with cp_data := map_set s.cp_data cpfd (cpi ++ [f]) })
      else if opcode = CPOLL_CTL_MOD then
        match ctl_mod_loop cpi fd event cpi.length 0 with
        | some cpi1 => (0, { s with cp_data := map_set s.cp_data cpfd cpi1 })
        | none => (-1, s)
      else if opcode = CPOLL_CTL_DEL then
        match ctl_del_loop cpi fd cpi.length 0 with
        | some cpi1 => (0, { s with cp_data := map_set s.cp_data cpfd cpi1 })
        | none => (-1, s)
      else (-1, s)

/-! ## Wait engine -/

/-- What the Winsock calls of one `cpoll_wait` return: `wait_result j` is the
`DWORD` returned by the `j`-th call of `WSAWaitForMultipleEvents`, and
`enum_result i` describes `WSAEnumNetworkEvents` on `cpi[i].fd`: `none` when it
returns non-zero, otherwise the `lNetworkEvents` it stores. -/
structure Native where
  wait_result : Nat → Nat
  enum_result : Nat → Option Nat

/-- What Winsock holds on behalf of the process: the number of event objects
created and not yet closed, and the sockets that have an event association. -/
structure wsa_t where
  events_open : Nat
  selected : List Int
deriving DecidableEq, Repr

/-- Winsock `WSACreateEvent`. -/
def WSACreateEvent (w : wsa_t) : wsa_t := { w with events_open := w.events_open + 1 }

/-- Winsock `WSACloseEvent`. -/
def WSACloseEvent (w : wsa_t) : wsa_t := { w with events_open := w.events_open - 1 }

/-- Winsock `WSAEventSelect(s, .., lNetworkEvents)`: a zero mask cancels the
association of socket `s`, any other mask replaces it. -/
def WSAEventSelect (w : wsa_t) (s : Int) (lNetworkEvents : Nat) : wsa_t :=
  { w with
    selected :=
      if lNetworkEvents = 0 then w.selected.filter (fun x => x ≠ s)
      else s :: w.selected.filter (fun x => x ≠ s) }

/-- The caller's `events` array after `events[i] = e`. -/
def buf_set (events : Nat → cpoll_event) (i : Nat) (e : cpoll_event) : Nat → cpoll_event :=
  fun j => if j = i then e else events j

/-- The registration loop of `cpoll_wait` (lines 259-264), at index `i` with
`k = cpi.size() - i` iterations left. -/
def wait_register (cpi : cp_internal) : Nat → Nat → wsa_t → wsa_t
  | 0, _, w => w
  | k + 1, i, w =>
    match cpi[i]? with
    | none => w
    | some f =>
      wait_register cpi k (i + 1)
        (WSAEventSelect (WSACreateEvent w) f.fd (get_wsa_mask f.event.events))

/-- The clean-up loop of `cpoll_wait` (lines 325-331), at index `i` with
`k = cpi.size() - i` iterations left. -/
def wait_cleanup (cpi : cp_internal) : Nat → Nat → wsa_t → wsa_t
  | 0, _, w => w
  | k + 1, i, w =>
    match cpi[i]? with
    | none => w
    | some f => wait_cleanup cpi k (i + 1) (WSACloseEvent (WSAEventSelect w f.fd 0))

/-- The "try accept" loop of `cpoll_wait` (lines 271-289), at index `i` with
`k = cpi.size() - i` iterations left; the `accept` test is commented out in the
source, so the body runs for every entry. Returns `events` and `num_ready`. -/
def wait_accept (cpi : cp_internal) (maxevents : Int) :
    Nat → Nat → (Nat → cpoll_event) → Nat → (Nat → cpoll_event) × Nat
  | 0, _, events, num_ready => (events, num_ready)
  | k + 1, i, events, num_ready =>
    match cpi[i]? with
    | none => (events, num_ready)
    | some f =>
      if (num_ready : Int) < maxevents then
        wait_accept cpi maxevents k (i + 1)
          (buf_set events num_ready { events := FD_CONNECT, data := f.event.data })
          (num_ready + 1)
      else (events, num_ready)

/-- The `for(;;)` loop of `cpoll_wait` (lines 269-296) at its `j`-th iteration.
The source loop has no bound: `fuel` bounds the number of iterations here, and
`none` means the loop was still running when the fuel ran out. Returns
`events`, `num_ready` and `wsa_result` at the `break`. -/
def wait_poll (native : Native) (cpi : cp_internal) (maxevents : Int) :
    Nat → Nat → (Nat → cpoll_event) → Nat → Option ((Nat → cpoll_event) × Nat × Nat)
  | 0, _, _, _ => none
  | fuel + 1, j, events, num_ready =>
    let a := wait_accept cpi maxevents cpi.length 0 events num_ready
    let wsa_result := native.wait_result j
    if wsa_result ≠ WSA_WAIT_TIMEOUT ∨ a.2 > 0 then some (a.1, a.2, wsa_result)
    else wait_poll native cpi maxevents fuel (j + 1) a.1 a.2

/-- State of the enumeration loop of `cpoll_wait` when it is left; `failed`
says that it was left through `return -1` (line 308). -/
structure enum_t where
  failed : Bool
  cpi : cp_internal
  events : Nat → cpoll_event
  num_ready : Nat

/-- The enumeration loop of `cpoll_wait` (lines 302-322), at index `i` with
`k = cpi.size() - i` iterations left. -/
def wait_enum (native : Native) (maxevents : Int) :
    Nat → Nat → cp_internal → (Nat → cpoll_event) → Nat → enum_t
  | 0, _, cpi, events, num_ready => ⟨false, cpi, events, num_ready⟩
  | k + 1, i, cpi, events, num_ready =>
    match cpi[i]? with
    | none => ⟨false, cpi, events, num_ready⟩
    | some f =>
      if (num_ready : Int) < maxevents then
        match native.enum_result i with
        | none => ⟨true, cpi, events, num_ready⟩
        | some ne =>
          if ne ≠ 0 then
            let cpi1 :=
              if f.event.events &&& CPOLLONESHOT ≠ 0 then
                cpi.set i { fd := f.fd, event := { events := 0, data := f.event.data } }
              else cpi
            wait_enum native maxevents k (i + 1) cpi1
              (buf_set events num_ready { events := get_cp_mask ne, data := f.event.data })
              (num_ready + 1)
          else wait_enum native maxevents k (i + 1) cpi events num_ready
      else ⟨false, cpi, events, num_ready⟩

/-- What a call of `cpoll_wait` leaves behind: the returned `int`, the caller's
`events` array, the globals and the Winsock registrations. -/
structure wait_t where
  ret : Int
  events : Nat → cpoll_event
  state : State
  wsa : wsa_t

/-- Function `cpoll_wait` (lines 247-341). `fuel` bounds the `for(;;)` loop (see
`wait_poll`); `none` means the call has not returned within that bound. The
source never reads `timeout`. -/
def cpoll_wait (fuel : Nat) (native : Native) (s : State) (w : wsa_t) (cpfd : Int)
    (events : Nat → cpoll_event) (maxevents : Int) (timeout : Int) : Option wait_t :=
  if cpfd < 0 ∨ maxevents < 1 then some ⟨-1, events, s, w⟩
  else
    match s.cp_data cpfd with
    | none => some ⟨-1, events, s, w⟩
    | some cpi =>
      let w1 := wait_register cpi cpi.length 0 w
      match wait_poll native cpi maxevents fuel 0 events 0 with
      | none => none
      | some (events1, num_ready, wsa_result) =>
        if wsa_result ≠ WSA_WAIT_TIMEOUT then
          let e := wrap32 ((wsa_result : Int) - (WSA_WAIT_EVENT_0 : Int))
          let i := to_size_type e
          let r := wait_enum native maxevents (cpi.length - i) i cpi events1 num_ready
          let s1 : State := { s with cp_data := map_set s.cp_data cpfd r.cpi }
          if r.failed then some ⟨-1, r.events, s1, w1⟩
          else some ⟨r.num_ready, r.events, s1, wait_cleanup r.cpi r.cpi.length 0 w1⟩
        else some ⟨num_ready, events1, s, wait_cleanup cpi cpi.length 0 w1⟩

/-! ## Reachable states -/

/-- The states of the globals that a program can be in after `cpoll_startup`
and any calls of `cpoll_create`, `cpoll_close`, `cpoll_ctl` and `cpoll_wait`
that have returned. -/
inductive Reachable : State → Prop
  | startup : Reachable (cpoll_startup program_start)
  | create (s : State) (size : Int) : Reachable s → Reachable (cpoll_create s size).2
  | close (s : State) (cpfd : Int) : Reachable s → Reachable (cpoll_close s cpfd).2
  | ctl (s : State) (cpfd opcode fd : Int) (event : cpoll_event) :
      Reachable s → Reachable (cpoll_ctl s cpfd opcode fd event).2
  | wait (s : State) (fuel : Nat) (native : Native) (w : wsa_t) (cpfd : Int)
      (events : Nat → cpoll_event) (maxevents timeout : Int) (r : wait_t) :
      Reachable s → cpoll_wait fuel native s w cpfd events maxevents timeout = some r →
      Reachable r.state

/-! ## Sequences of control operations and their reference model -/

/-- The three control operations of the specification. -/
inductive OpKind
  | Add
  | Modify
  | Remove
deriving DecidableEq, Repr

/-- A control operation with its handle, interest mask and tag. -/
structure CtlOp where
  kind : OpKind
  handle : Int
  mask : Nat
  tag : Nat
deriving DecidableEq, Repr

/-- The opcode that `cpoll_ctl` receives for an operation. -/
def opcode_of : OpKind → Int
  | .Add => CPOLL_CTL_ADD
  | .Modify => CPOLL_CTL_MOD
  | .Remove => CPOLL_CTL_DEL

/-- The code under the operations `ops`, all on poll-set `cpfd`: the returned
`int` of every call, and the final state. -/
def run_ctl (s : State) (cpfd : Int) : List CtlOp → List Int × State
  | [] => ([], s)
  | op :: ops =>
    let r := cpoll_ctl s cpfd (opcode_of op.kind) op.handle ⟨op.mask, op.tag⟩
    let rest := run_ctl r.2 cpfd ops
    (r.1 :: rest.1, rest.2)

/-- A registry as the specification sees it: the ordered list of
(handle, mask, tag). -/
abbrev Registry := List (Int × Nat × Nat)

/-- The registry held by a `cp_internal`. -/
def registry_of (cpi : cp_internal) : Registry :=
  cpi.map (fun f => (f.fd, f.event.events, f.event.data))

/-- The handles of a registry, in order. -/
def handles (r : Registry) : List Int := r.map Prod.fst

/-- One operation on the reference model (written from the specification): Add
appends when the handle is absent, Modify replaces the entry of the handle in
place, Remove deletes the entry of the handle, and a failing operation changes
nothing. The entry of a handle is found by its position in `handles`. -/
def ref_step (r : Registry) (op : CtlOp) : Bool × Registry :=
  match op.kind with
  | .Add =>
    if op.handle ∈ handles r then (false, r)
    else (true, r ++ [(op.handle, op.mask ||| CPOLLHUP ||| CPOLLERR, op.tag)])
  | .Modify =>
    if op.handle ∈ handles r then
      (true, r.set ((handles r).indexOf op.handle)
        (op.handle, op.mask ||| CPOLLHUP ||| CPOLLERR, op.tag))
    else (false, r)
  | .Remove =>
    if op.handle ∈ handles r then (true, r.eraseIdx ((handles r).indexOf op.handle))
    else (false, r)

/-- The reference model under the operations `ops`: the success of every
operation, and the final registry. -/
def ref_run (r : Registry) : List CtlOp → List Bool × Registry
  | [] => ([], r)
  | op :: ops =>
    let x := ref_step r op
    let rest := ref_run x.2 ops
    (x.1 :: rest.1, rest.2)

/-- The `int` that `cpoll_ctl` returns for success and for failure. -/
def ret_of (ok : Bool) : Int := if ok then 0 else -1

/-! ## Calls of the API -/

/-- A call of one of the four API functions, with its arguments; a call of
`cpoll_wait` carries what Winsock does during it. -/
inductive Call
  | create (size : Int)
  | close (cpfd : Int)
  | ctl (cpfd opcode fd : Int) (event : cpoll_event)
  | wait (fuel : Nat) (native : Native) (w : wsa_t) (cpfd : Int)
      (events : Nat → cpoll_event) (maxevents timeout : Int)

/-- The returned `int` and the globals after a call; `none` when a
`cpoll_wait` has not returned within its fuel. -/
def exec (s : State) : Call → Option (Int × State)
  | .create size => some (cpoll_create s size)
  | .close cpfd => some (cpoll_close s cpfd)
  | .ctl cpfd opcode fd event => some (cpoll_ctl s cpfd opcode fd event)
  | .wait fuel native w cpfd events maxevents timeout =>
    (cpoll_wait fuel native s w cpfd events maxevents timeout).map (fun r => (r.ret, r.state))

/-- Relation `Later id s t`: the state `t` is reached from `s` by calls that
have returned, none of them a `cpoll_create` that returned `id`. -/
inductive Later (id : Int) : State → State → Prop
  | refl (s : State) : Later id s s
  | step (s t u : State) (c : Call) (ret : Int) :
      Later id s t → exec t c = some (ret, u) →
      (∀ size, c = Call.create size → ret ≠ id) → Later id s u

/-! ## Invariants -/

/-- What `cpoll_wait` may do to an entry of the registry: leave it as it is, or
store the mask 0 in an entry that carried `CPOLLONESHOT` (lines 312-315). -/
def entry_step (f g : fd_t) : Prop :=
  g = f ∨ (f.event.events &&& CPOLLONESHOT ≠ 0 ∧ g = ⟨f.fd, ⟨0, f.event.data⟩⟩)

/-- A stored mask that has both `CPOLLHUP` and `CPOLLERR`. -/
def has_hup_err (events : Nat) : Prop :=
  events &&& CPOLLHUP ≠ 0 ∧ events &&& CPOLLERR ≠ 0

instance (events : Nat) : Decidable (has_hup_err events) := by
  unfold has_hup_err
  infer_instance

/-! ## Flags of a mask -/

/-- The mask `m` with the flag `x` cleared (`m & ~x` in C). -/
def clear_flag (m x : Nat) : Nat := m ^^^ (m &&& x)

/-! ## The results of a wait, as lists -/

/-- The results that a returned `cpoll_wait` hands to its caller: the slots
`0 .. ret - 1` of the `events` array. -/
def results_of (r : wait_t) : List cpoll_event := (List.range r.ret.toNat).map r.events

/-- The tags (`event.data`) of a registry, in order. -/
def tags_of (cpi : cp_internal) : List Nat := cpi.map (fun f => f.event.data)

/-- The index at which the enumeration loop of `cpoll_wait` starts for a given
`wsa_result` (lines 300-302: `int e = wsa_result - WSA_WAIT_EVENT_0`, then
`size_type i = e`). -/
def enum_start (wsa_result : Nat) : Nat :=
  to_size_type (wrap32 ((wsa_result : Int) - (WSA_WAIT_EVENT_0 : Int)))

/-- The result records for the entries that have pending native events, taken
in the order `order` of their indices: the mask is the translated
`lNetworkEvents`, the tag is the one of the entry. -/
def pending_records (native : Native) (tags : List Nat) (order : List Nat) :
    List cpoll_event :=
  order.filterMap (fun i =>
    match tags[i]?, native.enum_result i with
    | some t, some ne => if ne ≠ 0 then some ⟨get_cp_mask ne, t⟩ else none
    | _, _ => none)

/-- The order of visit that the specification states for a signal at index `e`
of `n` entries: `e, e+1, .., n-1, 0, 1, .., e-1`. -/
def wrap_order (e n : Nat) : List Nat := List.range' e (n - e) ++ List.range e

/-- The synthesized records of the accept loop for the first `c` entries:
(`FD_CONNECT`, tag of the entry). -/
def synthesized (cpi : cp_internal) (c : Nat) : List cpoll_event :=
  (cpi.take c).map (fun f => ⟨FD_CONNECT, f.event.data⟩)

/-- The results that the specification states for a `cpoll_wait` when Winsock
signals index `e`: after the `n1` synthesized records, one record for every
entry with pending native events, in the order `wrap_order`, until `maxevents`
results are there. -/
def claimed_results (native : Native) (cpi : cp_internal) (maxevents : Int) (e : Nat) :
    List cpoll_event :=
  synthesized cpi (min cpi.length maxevents.toNat) ++
    (pending_records native (tags_of cpi) (wrap_order e cpi.length)).take
      (maxevents.toNat - min cpi.length maxevents.toNat)

/-- The indices, among `order`, of the entries on which a network event is
pending (`WSAEnumNetworkEvents` succeeds with `lNetworkEvents != 0`). -/
def pending_indices (native : Native) (order : List Nat) : List Nat :=
  order.filter (fun i =>
    match native.enum_result i with
    | some ne => decide (ne ≠ 0)
    | none => false)

/-- The indices of the entries that the enumeration loop reports in a
`cpoll_wait` with `maxevents >= 1` on a registry of `n >= 1` entries that
returns a count: none when the wait slice timed out; otherwise the entries
with pending network events from `enum_start` on, in order, as many as there
is room for after the `min n maxevents` synthesized records. -/
def enum_reported (native : Native) (n : Nat) (maxevents : Int) : List Nat :=
  if native.wait_result 0 = WSA_WAIT_TIMEOUT then []
  else
    (pending_indices native
      (List.range' (enum_start (native.wait_result 0))
        (n - enum_start (native.wait_result 0)))).take
      (maxevents.toNat - min n maxevents.toNat)

/-! ## Example inputs -/

/-- Example state: poll-set 1 is open and watches socket 7 with the mask
`CPOLLIN | CPOLLERR | CPOLLHUP` and tag 42. -/
def ex_state : State :=
  { cp_next_id := 1, cp_data := map_set (fun _ => none) 1 [⟨7, ⟨0x31, 42⟩⟩] }

/-- Example sequence of control operations. -/
def ex_ops : List CtlOp :=
  [⟨.Add, 9, 2, 5⟩, ⟨.Add, 7, 1, 6⟩, ⟨.Modify, 7, 0x80, 8⟩, ⟨.Remove, 7, 0, 0⟩,
   ⟨.Remove, 7, 0, 0⟩, ⟨.Modify, 3, 1, 1⟩]

/-- Example state reached by start-up, one `cpoll_create` and one
`CPOLL_CTL_ADD` of socket 7 with the mask `CPOLLIN | CPOLLONESHOT` and tag 42
on the poll-set 1 that was created. -/
def ex_oneshot : State :=
  (cpoll_ctl (cpoll_create (cpoll_startup program_start) 0).2 1 CPOLL_CTL_ADD 7 ⟨0x81, 42⟩).2

/-- Example behaviour of Winsock: the first wait slice signals event 0, and the
enumeration finds `FD_READ` pending on every socket. -/
def ex_native_read : Native :=
  { wait_result := fun _ => WSA_WAIT_EVENT_0, enum_result := fun _ => some FD_READ }

/-- Example `events` array of a caller, zero-filled. -/
def ex_events : Nat → cpoll_event := fun _ => ⟨0, 0⟩

/-- Example state reached by start-up, two calls of `cpoll_create` (which
return 1 and 2) and a `CPOLL_CTL_ADD` of socket 7 on each of the two
poll-sets. -/
def ex_shared : State :=
  (cpoll_ctl
    (cpoll_ctl (cpoll_create (cpoll_create (cpoll_startup program_start) 0).2 0).2
      1 CPOLL_CTL_ADD 7 ⟨1, 42⟩).2
    2 CPOLL_CTL_ADD 7 ⟨2, 43⟩).2

/-- Example state late in the life of a process: the counter stands at
`INT_MAX - 2`, and the poll-sets 0, `INT_MAX - 1` and `INT_MAX` are open, the
last one watching socket 7. -/
def ex_wrap : State :=
  { cp_next_id := 2147483645,
    cp_data :=
      map_set (map_set (map_set (fun _ => none) 0 []) 2147483646 []) 2147483647
        [⟨7, ⟨0x31, 42⟩⟩] }

/-- Example state in which the counter stands at `INT_MAX - 1` and no poll-set
is open. -/
def ex_before_zero : State := { cp_next_id := 2147483646, cp_data := fun _ => none }

/-- Example state: only poll-set 0 is open, and it is empty. -/
def ex_zero : State := { cp_next_id := 0, cp_data := map_set (fun _ => none) 0 [] }

/-- Example behaviour of Winsock: every wait slice times out and no socket has
a pending network event. -/
def ex_native_idle : Native :=
  { wait_result := fun _ => WSA_WAIT_TIMEOUT, enum_result := fun _ => some 0 }

/-- Example state: poll-set 1 is open and empty. -/
def ex_empty : State := { cp_next_id := 1, cp_data := map_set (fun _ => none) 1 [] }

/-- Example state: poll-set 1 is open and watches the sockets 7, 8 and 9. -/
def ex_three : State :=
  { cp_next_id := 1,
    cp_data := map_set (fun _ => none) 1
      [⟨7, ⟨0x31, 42⟩⟩, ⟨8, ⟨0x31, 43⟩⟩, ⟨9, ⟨0x31, 44⟩⟩] }

/-- Example behaviour of Winsock: the first wait slice signals event 0, and
`WSAEnumNetworkEvents` fails on every socket. -/
def ex_native_enum_fails : Native :=
  { wait_result := fun _ => WSA_WAIT_EVENT_0, enum_result := fun _ => none }

/-- Example state: poll-set 1 was created empty (`ex_empty`) and socket 7, a
listening socket, was added with the interest `CPOLLIN` and the tag 42. -/
def ex_listening : State := (cpoll_ctl ex_empty 1 CPOLL_CTL_ADD 7 ⟨CPOLLIN, 42⟩).2

/-- Example state: poll-set 1 is open and watches the sockets 7 (with
`CPOLLONESHOT`) and 8. -/
def ex_two : State :=
  { cp_next_id := 1,
    cp_data := map_set (fun _ => none) 1 [⟨7, ⟨0xB1, 42⟩⟩, ⟨8, ⟨0x31, 43⟩⟩] }

/-- Example behaviour of Winsock: the first wait slice signals event 1, and the
enumeration finds `FD_READ` pending on every socket. -/
def ex_native_second : Native :=
  { wait_result := fun _ => WSA_WAIT_EVENT_0 + 1, enum_result := fun _ => some FD_READ }

/-! # Theorems -/

/-! ## The loops of `cpoll_ctl` -/

theorem getElem?_append_cons_length (pre : cp_internal) (f : fd_t) (rest : cp_internal) :
    (pre ++ f :: rest)[pre.length]? = some f := by
  rw [List.getElem?_append_right (Nat.le_refl _)]
  simp

theorem ctl_add_scan_append (fd : Int) (suf pre : cp_internal) :
    ctl_add_scan (pre ++ suf) fd suf.length pre.length
      = decide (fd ∈ suf.map (fun f => f.fd)) := by
  induction suf generalizing pre with
  | nil => simp [ctl_add_scan]
  | cons f rest ih =>
    simp only [List.length_cons, ctl_add_scan, getElem?_append_cons_length]
    by_cases h : f.fd = fd
    · simp [h]
    · have e := ih (pre ++ [f])
      simp only [List.append_assoc, List.singleton_append, List.length_append,
        List.length_singleton] at e
      rw [if_neg h, e]
      have h2 : ¬ fd = f.fd := fun x => h x.symm
      simp [h2]

theorem ctl_add_scan_eq (cpi : cp_internal) (fd : Int) :
    ctl_add_scan cpi fd cpi.length 0 = decide (fd ∈ cpi.map (fun f => f.fd)) := by
  simpa using ctl_add_scan_append fd cpi []

theorem ctl_mod_loop_append (fd : Int) (event : cpoll_event) (suf pre : cp_internal) :
    ctl_mod_loop (pre ++ suf) fd event suf.length pre.length
      = if fd ∈ suf.map (fun f => f.fd) then
          some (pre ++ suf.set ((suf.map (fun f => f.fd)).indexOf fd)
            ⟨fd, ⟨(event.events ||| CPOLLHUP) ||| CPOLLERR, event.data⟩⟩)
        else none := by
  induction suf generalizing pre with
  | nil => simp [ctl_mod_loop]
  | cons f rest ih =>
    simp only [List.length_cons, ctl_mod_loop, getElem?_append_cons_length]
    by_cases h : f.fd = fd
    · simp [h, List.set_append_right]
    · have e := ih (pre ++ [f])
      simp only [List.append_assoc, List.singleton_append, List.length_append,
        List.length_singleton] at e
      rw [if_neg h, e]
      have h2 : ¬ fd = f.fd := fun x => h x.symm
      simp [h2, List.indexOf_cons_ne _ h]

theorem ctl_mod_loop_eq (cpi : cp_internal) (fd : Int) (event : cpoll_event) :
    ctl_mod_loop cpi fd event cpi.length 0
      = if fd ∈ cpi.map (fun f => f.fd) then
          some (cpi.set ((cpi.map (fun f => f.fd)).indexOf fd)
            ⟨fd, ⟨(event.events ||| CPOLLHUP) ||| CPOLLERR, event.data⟩⟩)
        else none := by
  simpa using ctl_mod_loop_append fd event cpi []

theorem ctl_del_loop_append (fd : Int) (suf pre : cp_internal) :
    ctl_del_loop (pre ++ suf) fd suf.length pre.length
      = if fd ∈ suf.map (fun f => f.fd) then
          some (pre ++ suf.eraseIdx ((suf.map (fun f => f.fd)).indexOf fd))
        else none := by
  induction suf generalizing pre with
  | nil => simp [ctl_del_loop]
  | cons f rest ih =>
    simp only [List.length_cons, ctl_del_loop, getElem?_append_cons_length]
    by_cases h : f.fd = fd
    · simp [h, List.eraseIdx_append_of_length_le]
    · have e := ih (pre ++ [f])
      simp only [List.append_assoc, List.singleton_append, List.length_append,
        List.length_singleton] at e
      rw [if_neg h, e]
      have h2 : ¬ fd = f.fd := fun x => h x.symm
      simp [h2, List.indexOf_cons_ne _ h]

theorem ctl_del_loop_eq (cpi : cp_internal) (fd : Int) :
    ctl_del_loop cpi fd cpi.length 0
      = if fd ∈ cpi.map (fun f => f.fd) then
          some (cpi.eraseIdx ((cpi.map (fun f => f.fd)).indexOf fd))
        else none := by
  simpa using ctl_del_loop_append fd cpi []

/-! ## Control operations against the reference model -/

theorem handles_registry_of (cpi : cp_internal) :
    handles (registry_of cpi) = cpi.map (fun f => f.fd) := by
  simp [handles, registry_of, List.map_map, Function.comp_def]

theorem map_eraseIdx_eq {α β : Type} (g : α → β) (l : List α) (i : Nat) :
    (l.eraseIdx i).map g = (l.map g).eraseIdx i := by
  induction l generalizing i with
  | nil => simp
  | cons a l ih =>
    cases i with
    | zero => simp
    | succ i => simp [ih]

theorem map_set_same (m : Int → Option cp_internal) (k : Int) (v : cp_internal) :
    map_set m k v k = some v := by
  simp [map_set]

theorem map_set_other (m : Int → Option cp_internal) (k j : Int) (v : cp_internal)
    (h : j ≠ k) : map_set m k v j = m j := by
  simp [map_set, h]

/-- One call of `cpoll_ctl` on an open poll-set does what `ref_step` does on the
registry, returns `ret_of` of its success, and touches nothing else. -/
theorem cpoll_ctl_ref_step (s : State) (cpfd : Int) (cpi : cp_internal) (op : CtlOp)
    (h0 : 0 ≤ cpfd) (hopen : s.cp_data cpfd = some cpi) :
    ∃ cpi1,
      (cpoll_ctl s cpfd (opcode_of op.kind) op.handle ⟨op.mask, op.tag⟩).2.cp_data cpfd
          = some cpi1 ∧
      registry_of cpi1 = (ref_step (registry_of cpi) op).2 ∧
      (cpoll_ctl s cpfd (opcode_of op.kind) op.handle ⟨op.mask, op.tag⟩).1
          = ret_of (ref_step (registry_of cpi) op).1 ∧
      (∀ j, j ≠ cpfd →
        (cpoll_ctl s cpfd (opcode_of op.kind) op.handle ⟨op.mask, op.tag⟩).2.cp_data j
          = s.cp_data j) ∧
      (cpoll_ctl s cpfd (opcode_of op.kind) op.handle ⟨op.mask, op.tag⟩).2.cp_next_id
          = s.cp_next_id := by
  have hneg : ¬ cpfd < 0 := by omega
  obtain ⟨kind, handle, mask, tag⟩ := op
  cases kind with
  | Add =>
    by_cases hm : handle ∈ cpi.map (fun f => f.fd)
    · refine ⟨cpi, ?_⟩
      simp only [ref_step, handles_registry_of, if_pos hm]
      simp [cpoll_ctl, hneg, hopen, opcode_of, ctl_add_scan_eq, hm, ret_of]
    · refine ⟨cpi ++ [⟨handle, ⟨(mask ||| CPOLLHUP) ||| CPOLLERR, tag⟩⟩], ?_⟩
      simp only [ref_step, handles_registry_of, if_neg hm]
      simp [cpoll_ctl, hneg, hopen, opcode_of, ctl_add_scan_eq, hm, ret_of, map_set,
        registry_of]
      intro j hj hj2
      exact absurd hj2 hj
  | Modify =>
    by_cases hm : handle ∈ cpi.map (fun f => f.fd)
    · refine ⟨cpi.set ((cpi.map (fun f => f.fd)).indexOf handle)
        ⟨handle, ⟨(mask ||| CPOLLHUP) ||| CPOLLERR, tag⟩⟩, ?_⟩
      simp only [ref_step, handles_registry_of, if_pos hm]
      simp [cpoll_ctl, hneg, hopen, opcode_of, ctl_mod_loop_eq, hm, ret_of, map_set,
        registry_of, CPOLL_CTL_ADD, CPOLL_CTL_MOD]
      intro j hj hj2
      exact absurd hj2 hj
    · refine ⟨cpi, ?_⟩
      simp only [ref_step, handles_registry_of, if_neg hm]
      simp [cpoll_ctl, hneg, hopen, opcode_of, ctl_mod_loop_eq, hm, ret_of,
        CPOLL_CTL_ADD, CPOLL_CTL_MOD]
  | Remove =>
    by_cases hm : handle ∈ cpi.map (fun f => f.fd)
    · refine ⟨cpi.eraseIdx ((cpi.map (fun f => f.fd)).indexOf handle), ?_⟩
      simp only [ref_step, handles_registry_of, if_pos hm]
      simp [cpoll_ctl, hneg, hopen, opcode_of, ctl_del_loop_eq, hm, ret_of, map_set,
        registry_of, CPOLL_CTL_ADD, CPOLL_CTL_MOD, CPOLL_CTL_DEL, map_eraseIdx_eq]
      intro j hj hj2
      exact absurd hj2 hj
    · refine ⟨cpi, ?_⟩
      simp only [ref_step, handles_registry_of, if_neg hm]
      simp [cpoll_ctl, hneg, hopen, opcode_of, ctl_del_loop_eq, hm, ret_of,
        CPOLL_CTL_ADD, CPOLL_CTL_MOD, CPOLL_CTL_DEL]

/-- C1: for every open poll-set and every sequence of Add/Modify/Remove
operations applied to it, the final registry (as the ordered list of
(handle, mask, tag)) is the one the reference model reaches, every call returns
0 or -1 as the model succeeds or fails, and every other poll-set and the id
counter are unchanged. -/
theorem run_ctl_refines_ref_run (s : State) (cpfd : Int) (cpi : cp_internal)
    (ops : List CtlOp) (h0 : 0 ≤ cpfd) (hopen : s.cp_data cpfd = some cpi) :
    ((run_ctl s cpfd ops).2.cp_data cpfd).map registry_of
        = some (ref_run (registry_of cpi) ops).2 ∧
    (run_ctl s cpfd ops).1 = (ref_run (registry_of cpi) ops).1.map ret_of ∧
    (∀ j, j ≠ cpfd → (run_ctl s cpfd ops).2.cp_data j = s.cp_data j) ∧
    (run_ctl s cpfd ops).2.cp_next_id = s.cp_next_id := by
  induction ops generalizing s cpi with
  | nil => simp [run_ctl, ref_run, hopen]
  | cons op ops ih =>
    obtain ⟨cpi1, h1, h2, h3, h4, h5⟩ := cpoll_ctl_ref_step s cpfd cpi op h0 hopen
    obtain ⟨i1, i2, i3, i4⟩ := ih _ cpi1 h1
    simp only [run_ctl, ref_run, List.map_cons]
    refine ⟨?_, ?_, ?_, ?_⟩
    · rw [i1, h2]
    · rw [i2, h3, h2]
    · intro j hj
      rw [i3 j hj, h4 j hj]
    · rw [i4, h5]

theorem run_ctl_refines_ref_run_witness :
    ((run_ctl ex_state 1 ex_ops).2.cp_data 1).map registry_of
        = some (ref_run (registry_of [⟨7, ⟨0x31, 42⟩⟩]) ex_ops).2 ∧
    (run_ctl ex_state 1 ex_ops).1 = [0, -1, 0, 0, -1, -1] :=
  ⟨(run_ctl_refines_ref_run ex_state 1 [⟨7, ⟨0x31, 42⟩⟩] ex_ops (by decide) rfl).1,
   by decide⟩

/-- C2: on an open poll-set, `CPOLL_CTL_ADD` of a handle that is already in the
registry returns -1 for every event mask and tag, and the whole state (this
registry, every other registry, the id counter) is unchanged. -/
theorem ctl_add_present_fails (s : State) (cpfd fd : Int) (event : cpoll_event)
    (cpi : cp_internal) (h0 : 0 ≤ cpfd) (hopen : s.cp_data cpfd = some cpi)
    (hpresent : fd ∈ cpi.map (fun f => f.fd)) :
    cpoll_ctl s cpfd CPOLL_CTL_ADD fd event = (-1, s) := by
  have hneg : ¬ cpfd < 0 := by omega
  simp [cpoll_ctl, hneg, hopen, ctl_add_scan_eq, hpresent]

theorem ctl_add_present_fails_witness :
    cpoll_ctl ex_state 1 CPOLL_CTL_ADD 7 ⟨2, 99⟩ = (-1, ex_state) :=
  ctl_add_present_fails ex_state 1 7 ⟨2, 99⟩ [⟨7, ⟨0x31, 42⟩⟩] (by decide) rfl (by decide)

/-- C3: on an open poll-set, `CPOLL_CTL_MOD` and `CPOLL_CTL_DEL` of a handle
that is not in the registry both return -1 and leave the whole state
unchanged. -/
theorem ctl_mod_del_absent_fails (s : State) (cpfd fd : Int) (event : cpoll_event)
    (cpi : cp_internal) (h0 : 0 ≤ cpfd) (hopen : s.cp_data cpfd = some cpi)
    (habsent : fd ∉ cpi.map (fun f => f.fd)) :
    cpoll_ctl s cpfd CPOLL_CTL_MOD fd event = (-1, s) ∧
    cpoll_ctl s cpfd CPOLL_CTL_DEL fd event = (-1, s) := by
  have hneg : ¬ cpfd < 0 := by omega
  constructor
  · simp [cpoll_ctl, hneg, hopen, ctl_mod_loop_eq, habsent, CPOLL_CTL_ADD, CPOLL_CTL_MOD]
  · simp [cpoll_ctl, hneg, hopen, ctl_del_loop_eq, habsent, CPOLL_CTL_ADD, CPOLL_CTL_MOD,
      CPOLL_CTL_DEL]

theorem ctl_mod_del_absent_fails_witness :
    cpoll_ctl ex_state 1 CPOLL_CTL_MOD 8 ⟨2, 99⟩ = (-1, ex_state) ∧
    cpoll_ctl ex_state 1 CPOLL_CTL_DEL 8 ⟨2, 99⟩ = (-1, ex_state) :=
  ctl_mod_del_absent_fails ex_state 1 8 ⟨2, 99⟩ [⟨7, ⟨0x31, 42⟩⟩] (by decide) rfl (by decide)

/-! ## What each call does to the registries -/

theorem entry_step_trans {f g h : fd_t} (a : entry_step f g) (b : entry_step g h) :
    entry_step f h := by
  rcases a with rfl | ⟨a1, rfl⟩
  · exact b
  · rcases b with rfl | ⟨b1, _⟩
    · exact Or.inr ⟨a1, rfl⟩
    · simp at b1

theorem forall₂_entry_step_refl (cpi : cp_internal) : List.Forall₂ entry_step cpi cpi :=
  List.forall₂_same.2 (fun _ _ => Or.inl rfl)

theorem forall₂_entry_step_trans {a b c : cp_internal} (x : List.Forall₂ entry_step a b)
    (y : List.Forall₂ entry_step b c) : List.Forall₂ entry_step a c := by
  induction x generalizing c with
  | nil => cases y; exact List.Forall₂.nil
  | cons h _ ih =>
    cases y with
    | cons h2 t2 => exact List.Forall₂.cons (entry_step_trans h h2) (ih t2)

theorem forall₂_entry_step_set (cpi : cp_internal) (i : Nat) (f g : fd_t)
    (h : cpi[i]? = some f) (hs : entry_step f g) :
    List.Forall₂ entry_step cpi (cpi.set i g) := by
  induction cpi generalizing i with
  | nil => simp at h
  | cons a l ih =>
    cases i with
    | zero =>
      simp at h
      subst h
      exact List.Forall₂.cons hs (forall₂_entry_step_refl l)
    | succ i =>
      simp at h
      exact List.Forall₂.cons (Or.inl rfl) (ih i h)

/-- The enumeration loop only clears masks of one-shot entries. -/
theorem wait_enum_entries (native : Native) (maxevents : Int) (k i : Nat)
    (cpi : cp_internal) (events : Nat → cpoll_event) (n : Nat) :
    List.Forall₂ entry_step cpi (wait_enum native maxevents k i cpi events n).cpi := by
  induction k generalizing i cpi events n with
  | zero => simpa [wait_enum] using forall₂_entry_step_refl cpi
  | succ k ih =>
    simp only [wait_enum]
    cases hf : cpi[i]? with
    | none => simpa using forall₂_entry_step_refl cpi
    | some f =>
      simp only
      split
      · cases hne : native.enum_result i with
        | none => simpa using forall₂_entry_step_refl cpi
        | some ne =>
          simp only
          split
          · split
            · rename_i h1
              exact forall₂_entry_step_trans
                (forall₂_entry_step_set cpi i f _ hf (Or.inr ⟨h1, rfl⟩)) (ih _ _ _ _)
            · exact ih _ _ _ _
          · exact ih _ _ _ _
      · simpa using forall₂_entry_step_refl cpi

/-- A returned `cpoll_wait` leaves the counter alone, and every registry is the
old one up to cleared one-shot masks. -/
theorem cpoll_wait_registries (fuel : Nat) (native : Native) (s : State) (w : wsa_t)
    (cpfd : Int) (events : Nat → cpoll_event) (maxevents timeout : Int) (r : wait_t)
    (h : cpoll_wait fuel native s w cpfd events maxevents timeout = some r) :
    r.state.cp_next_id = s.cp_next_id ∧
    ∀ j out, r.state.cp_data j = some out →
      ∃ cpi, s.cp_data j = some cpi ∧ List.Forall₂ entry_step cpi out := by
  have same : ∀ j out, s.cp_data j = some out →
      ∃ cpi, s.cp_data j = some cpi ∧ List.Forall₂ entry_step cpi out :=
    fun j out e => ⟨out, e, forall₂_entry_step_refl out⟩
  unfold cpoll_wait at h
  split at h
  · cases h; exact ⟨rfl, same⟩
  · split at h
    · cases h; exact ⟨rfl, same⟩
    · rename_i cpi hcpi
      simp only at h
      split at h
      · cases h
      · split at h
        · split at h
          all_goals
            cases h
            refine ⟨rfl, ?_⟩
            intro j out e
            by_cases hj : j = cpfd
            · subst hj
              simp only [map_set_same, Option.some.injEq] at e
              subst e
              exact ⟨cpi, hcpi, wait_enum_entries _ _ _ _ _ _ _⟩
            · simp only [map_set_other _ _ _ _ hj] at e
              exact same j out e
        · cases h; exact ⟨rfl, same⟩

/-- The registries after `cpoll_ctl`: each is an old one, unchanged or changed
in one of the three ways of the opcodes. -/
theorem cpoll_ctl_registries (s : State) (cpfd opcode fd : Int) (event : cpoll_event) :
    (cpoll_ctl s cpfd opcode fd event).2.cp_next_id = s.cp_next_id ∧
    ∀ j out, (cpoll_ctl s cpfd opcode fd event).2.cp_data j = some out →
      ∃ cpi, s.cp_data j = some cpi ∧
        (out = cpi ∨
         (fd ∉ cpi.map (fun f => f.fd) ∧
           out = cpi ++ [⟨fd, ⟨(event.events ||| CPOLLHUP) ||| CPOLLERR, event.data⟩⟩]) ∨
         (fd ∈ cpi.map (fun f => f.fd) ∧
           out = cpi.set ((cpi.map (fun f => f.fd)).indexOf fd)
             ⟨fd, ⟨(event.events ||| CPOLLHUP) ||| CPOLLERR, event.data⟩⟩) ∨
         out = cpi.eraseIdx ((cpi.map (fun f => f.fd)).indexOf fd)) := by
  have same : ∀ j out, s.cp_data j = some out →
      ∃ cpi, s.cp_data j = some cpi ∧
        (out = cpi ∨
         (fd ∉ cpi.map (fun f => f.fd) ∧
           out = cpi ++ [⟨fd, ⟨(event.events ||| CPOLLHUP) ||| CPOLLERR, event.data⟩⟩]) ∨
         (fd ∈ cpi.map (fun f => f.fd) ∧
           out = cpi.set ((cpi.map (fun f => f.fd)).indexOf fd)
             ⟨fd, ⟨(event.events ||| CPOLLHUP) ||| CPOLLERR, event.data⟩⟩) ∨
         out = cpi.eraseIdx ((cpi.map (fun f => f.fd)).indexOf fd)) :=
    fun j out e => ⟨out, e, Or.inl rfl⟩
  unfold cpoll_ctl
  split
  · exact ⟨rfl, same⟩
  · split
    · exact ⟨rfl, same⟩
    · rename_i cpi hcpi
      have upd : ∀ (new : cp_internal) j out,
          (out = new → j = cpfd →
            (out = cpi ∨
             (fd ∉ cpi.map (fun f => f.fd) ∧
               out = cpi ++ [⟨fd, ⟨(event.events ||| CPOLLHUP) ||| CPOLLERR, event.data⟩⟩]) ∨
             (fd ∈ cpi.map (fun f => f.fd) ∧
               out = cpi.set ((cpi.map (fun f => f.fd)).indexOf fd)
                 ⟨fd, ⟨(event.events ||| CPOLLHUP) ||| CPOLLERR, event.data⟩⟩) ∨
             out = cpi.eraseIdx ((cpi.map (fun f => f.fd)).indexOf fd))) →
          map_set s.cp_data cpfd new j = some out →
          ∃ cpi, s.cp_data j = some cpi ∧
            (out = cpi ∨
             (fd ∉ cpi.map (fun f => f.fd) ∧
               out = cpi ++ [⟨fd, ⟨(event.events ||| CPOLLHUP) ||| CPOLLERR, event.data⟩⟩]) ∨
             (fd ∈ cpi.map (fun f => f.fd) ∧
               out = cpi.set ((cpi.map (fun f => f.fd)).indexOf fd)
                 ⟨fd, ⟨(event.events ||| CPOLLHUP) ||| CPOLLERR, event.data⟩⟩) ∨
             out = cpi.eraseIdx ((cpi.map (fun f => f.fd)).indexOf fd)) := by
        intro new j out hnew e
        by_cases hj : j = cpfd
        · subst hj
          simp only [map_set_same, Option.some.injEq] at e
          exact ⟨cpi, hcpi, hnew e.symm rfl⟩
        · rw [map_set_other _ _ _ _ hj] at e
          exact same j out e
      rw [ctl_add_scan_eq, ctl_mod_loop_eq, ctl_del_loop_eq]
      by_cases hm : fd ∈ cpi.map (fun f => f.fd)
      · simp only [hm, decide_True, if_true]
        split
        · exact ⟨rfl, same⟩
        · split
          · exact ⟨rfl, fun j out e => upd _ j out
              (fun h1 _ => Or.inr (Or.inr (Or.inl ⟨hm, h1⟩))) e⟩
          · split
            · exact ⟨rfl, fun j out e => upd _ j out
                (fun h1 _ => Or.inr (Or.inr (Or.inr h1))) e⟩
            · exact ⟨rfl, same⟩
      · simp only [hm, decide_False, if_false]
        split
        · exact ⟨rfl, fun j out e => upd _ j out
            (fun h1 _ => Or.inr (Or.inl ⟨hm, h1⟩)) e⟩
        · split
          · exact ⟨rfl, same⟩
          · split
            · exact ⟨rfl, same⟩
            · exact ⟨rfl, same⟩

/-- The registries after `cpoll_create`: old ones, or an empty one. -/
theorem cpoll_create_registries (s : State) (size : Int) (j : Int) (out : cp_internal)
    (h : (cpoll_create s size).2.cp_data j = some out) :
    out = [] ∨ s.cp_data j = some out := by
  unfold cpoll_create at h
  by_cases hs : size < 0
  · rw [if_pos hs] at h
    exact Or.inr h
  · rw [if_neg hs] at h
    simp only at h
    generalize create_scan s.cp_data _ = id at h
    by_cases hid : id < 0
    · rw [if_pos hid] at h
      exact Or.inr h
    · rw [if_neg hid] at h
      simp only [map_set] at h
      split at h
      · left
        simpa using h.symm
      · exact Or.inr h

/-- The registries after `cpoll_close` are old ones. -/
theorem cpoll_close_registries (s : State) (cpfd : Int) (j : Int) (out : cp_internal)
    (h : (cpoll_close s cpfd).2.cp_data j = some out) : s.cp_data j = some out := by
  unfold cpoll_close at h
  split at h
  · exact h
  · simp only [map_erase] at h
    split at h
    · cases h
    · exact h

/-! ## The stored masks -/

theorem has_hup_err_stored (m : Nat) : has_hup_err ((m ||| CPOLLHUP) ||| CPOLLERR) := by
  have b5 : (((m ||| CPOLLHUP) ||| CPOLLERR) &&& CPOLLHUP).testBit 5 = true := by
    simp only [CPOLLHUP, CPOLLERR, Nat.testBit_and, Nat.testBit_or, Bool.and_eq_true,
      Bool.or_eq_true]
    exact ⟨Or.inl (Or.inr (by decide)), by decide⟩
  have b4 : (((m ||| CPOLLHUP) ||| CPOLLERR) &&& CPOLLERR).testBit 4 = true := by
    simp only [CPOLLHUP, CPOLLERR, Nat.testBit_and, Nat.testBit_or, Bool.and_eq_true,
      Bool.or_eq_true]
    exact ⟨Or.inr (by decide), by decide⟩
  constructor
  · intro h0
    rw [h0] at b5
    simp at b5
  · intro h0
    rw [h0] at b4
    simp at b4

theorem forall₂_entry_step_mem {a b : cp_internal} (x : List.Forall₂ entry_step a b)
    (g : fd_t) (hg : g ∈ b) : ∃ f, f ∈ a ∧ entry_step f g := by
  induction x with
  | nil => simp at hg
  | cons h _ ih =>
    rcases List.mem_cons.1 hg with rfl | hg2
    · exact ⟨_, List.mem_cons_self _ _, h⟩
    · obtain ⟨f, hf, hs⟩ := ih hg2
      exact ⟨f, List.mem_cons_of_mem _ hf, hs⟩

theorem ex_create_eq :
    cpoll_create (cpoll_startup program_start) 0
      = (1, { cp_next_id := 1, cp_data := map_set (fun _ => none) 1 [] }) := by
  simp [cpoll_create, cpoll_startup, program_start, wrap32, create_scan]

theorem ex_oneshot_eq :
    ex_oneshot
      = { cp_next_id := 1,
          cp_data := map_set (map_set (fun _ => none) 1 []) 1 [⟨7, ⟨0xB1, 42⟩⟩] } := by
  unfold ex_oneshot
  rw [ex_create_eq]
  rfl

theorem ex_oneshot_reachable : Reachable ex_oneshot :=
  Reachable.ctl _ 1 CPOLL_CTL_ADD 7 ⟨0x81, 42⟩ (Reachable.create _ 0 Reachable.startup)

/-- After one `cpoll_wait` with capacity 2 on `ex_oneshot`, under
`ex_native_read`, the entry of socket 7 is stored with the mask 0. -/
theorem ex_oneshot_wait :
    ∃ r, cpoll_wait 1 ex_native_read ex_oneshot ⟨0, []⟩ 1 ex_events 2 0 = some r ∧
      r.ret = 2 ∧ r.state.cp_data 1 = some [⟨7, ⟨0, 42⟩⟩] := by
  rw [ex_oneshot_eq]
  have e : (cpoll_wait 1 ex_native_read
      { cp_next_id := 1,
        cp_data := map_set (map_set (fun _ => none) 1 []) 1 [⟨7, ⟨0xB1, 42⟩⟩] }
      ⟨0, []⟩ 1 ex_events 2 0).map (fun r => (r.ret, r.state.cp_data 1))
      = some (2, some [⟨7, ⟨0, 42⟩⟩]) := by decide
  cases hw : cpoll_wait 1 ex_native_read
      { cp_next_id := 1,
        cp_data := map_set (map_set (fun _ => none) 1 []) 1 [⟨7, ⟨0xB1, 42⟩⟩] }
      ⟨0, []⟩ 1 ex_events 2 0 with
  | none => rw [hw] at e; simp at e
  | some r =>
    rw [hw] at e
    simp only [Option.map_some', Option.some.injEq, Prod.mk.injEq] at e
    exact ⟨r, rfl, e.1, e.2⟩

/-- C4 (as stated) fails: a reachable state holds an entry whose stored mask
has neither `CPOLLHUP` nor `CPOLLERR`, namely the mask 0 that `cpoll_wait`
stores in a reported one-shot entry. -/
theorem stored_mask_hup_err_counterexample :
    ¬ (∀ s, Reachable s → ∀ (id : Int) (cpi : cp_internal), s.cp_data id = some cpi →
        ∀ f ∈ cpi, has_hup_err f.event.events) := by
  intro h
  obtain ⟨r, hr, _, hreg⟩ := ex_oneshot_wait
  have hreach : Reachable r.state :=
    Reachable.wait _ _ _ _ _ _ _ _ r ex_oneshot_reachable hr
  have bad := h r.state hreach 1 _ hreg ⟨7, ⟨0, 42⟩⟩ (by simp)
  exact absurd bad (by decide)

/-- C4 (amended): in every state reachable from start-up by `cpoll_create`,
`cpoll_close`, `cpoll_ctl` and `cpoll_wait`, every entry of every registry has
a stored mask that has both `CPOLLHUP` and `CPOLLERR`, or is 0. -/
theorem stored_mask_hup_err_or_zero (s : State) (hs : Reachable s) (id : Int)
    (cpi : cp_internal) (h : s.cp_data id = some cpi) (f : fd_t) (hf : f ∈ cpi) :
    f.event.events = 0 ∨ has_hup_err f.event.events := by
  induction hs generalizing id cpi f with
  | startup => simp [cpoll_startup, program_start] at h
  | create s0 size _ ih =>
    rcases cpoll_create_registries s0 size id cpi h with rfl | h0
    · simp at hf
    · exact ih id cpi h0 f hf
  | close s0 cpfd _ ih => exact ih id cpi (cpoll_close_registries s0 cpfd id cpi h) f hf
  | ctl s0 cpfd opcode fd event _ ih =>
    obtain ⟨old, hold, hcase⟩ := (cpoll_ctl_registries s0 cpfd opcode fd event).2 id cpi h
    rcases hcase with rfl | ⟨_, rfl⟩ | ⟨_, rfl⟩ | rfl
    · exact ih id _ hold f hf
    · rcases List.mem_append.1 hf with h1 | h1
      · exact ih id _ hold f h1
      · rw [List.mem_singleton] at h1
        subst h1
        exact Or.inr (has_hup_err_stored _)
    · rcases List.mem_or_eq_of_mem_set hf with h1 | h1
      · exact ih id _ hold f h1
      · subst h1
        exact Or.inr (has_hup_err_stored _)
    · exact ih id _ hold f (List.mem_of_mem_eraseIdx hf)
  | wait s0 fuel native w cpfd events maxevents timeout r _ hw ih =>
    obtain ⟨old, hold, hall⟩ :=
      (cpoll_wait_registries fuel native s0 w cpfd events maxevents timeout r hw).2 id cpi h
    obtain ⟨g, hg, hstep⟩ := forall₂_entry_step_mem hall f hf
    rcases hstep with rfl | ⟨_, rfl⟩
    · exact ih id _ hold f hg
    · exact Or.inl rfl

theorem stored_mask_hup_err_or_zero_witness :
    (⟨7, ⟨0xB1, 42⟩⟩ : fd_t).event.events = 0 ∨ has_hup_err (⟨7, ⟨0xB1, 42⟩⟩ : fd_t).event.events :=
  stored_mask_hup_err_or_zero ex_oneshot ex_oneshot_reachable 1 [⟨7, ⟨0xB1, 42⟩⟩]
    (by rw [ex_oneshot_eq]; rfl) ⟨7, ⟨0xB1, 42⟩⟩ (by simp)

/-! ## The handles of a registry -/

theorem forall₂_entry_step_fds {a b : cp_internal} (x : List.Forall₂ entry_step a b) :
    b.map (fun f => f.fd) = a.map (fun f => f.fd) := by
  induction x with
  | nil => rfl
  | cons h _ ih =>
    simp only [List.map_cons, ih, List.cons.injEq, and_true]
    rcases h with rfl | ⟨_, rfl⟩ <;> rfl

theorem set_indexOf_self (l : List Int) (a : Int) (h : a ∈ l) :
    l.set (l.indexOf a) a = l := by
  induction l with
  | nil => simp at h
  | cons b l ih =>
    by_cases hb : b = a
    · subst hb
      simp
    · rw [List.indexOf_cons_ne _ hb]
      have h2 : a ∈ l := by
        rcases List.mem_cons.1 h with h3 | h3
        · exact absurd h3.symm hb
        · exact h3
      simp [ih h2]

theorem ex_shared_eq :
    ex_shared
      = { cp_next_id := 2,
          cp_data :=
            map_set
              (map_set (map_set (map_set (fun _ => none) 1 []) 2 []) 1 [⟨7, ⟨0x31, 42⟩⟩])
              2 [⟨7, ⟨0x32, 43⟩⟩] } := by
  have e2 : cpoll_create { cp_next_id := 1, cp_data := map_set (fun _ => none) 1 [] } 0
      = (2, { cp_next_id := 2, cp_data := map_set (map_set (fun _ => none) 1 []) 2 [] }) := by
    simp [cpoll_create, wrap32, create_scan, map_set]
  unfold ex_shared
  rw [ex_create_eq, e2]
  rfl

theorem ex_shared_reachable : Reachable ex_shared :=
  Reachable.ctl _ 2 CPOLL_CTL_ADD 7 ⟨2, 43⟩
    (Reachable.ctl _ 1 CPOLL_CTL_ADD 7 ⟨1, 42⟩
      (Reachable.create _ 0 (Reachable.create _ 0 Reachable.startup)))

/-- The handles of every registry of a reachable state are pairwise distinct. -/
theorem reachable_handles_nodup (s : State) (hs : Reachable s) (id : Int)
    (cpi : cp_internal) (h : s.cp_data id = some cpi) :
    (cpi.map (fun f => f.fd)).Nodup := by
  induction hs generalizing id cpi with
  | startup => simp [cpoll_startup, program_start] at h
  | create s0 size _ ih =>
    rcases cpoll_create_registries s0 size id cpi h with rfl | h0
    · simp
    · exact ih id cpi h0
  | close s0 cpfd _ ih => exact ih id cpi (cpoll_close_registries s0 cpfd id cpi h)
  | ctl s0 cpfd opcode fd event _ ih =>
    obtain ⟨old, hold, hcase⟩ := (cpoll_ctl_registries s0 cpfd opcode fd event).2 id cpi h
    have hn := ih id old hold
    rcases hcase with rfl | ⟨hab, rfl⟩ | ⟨hpr, rfl⟩ | rfl
    · exact hn
    · rw [List.map_append, List.nodup_append]
      refine ⟨hn, by simp, ?_⟩
      intro a ha hb
      simp only [List.map_cons, List.map_nil, List.mem_singleton] at hb
      subst hb
      exact hab ha
    · rw [List.map_set]
      simp only
      rw [set_indexOf_self _ _ hpr]
      exact hn
    · exact List.Nodup.sublist ((List.eraseIdx_sublist old _).map _) hn
  | wait s0 fuel native w cpfd events maxevents timeout r _ hw ih =>
    obtain ⟨old, hold, hall⟩ :=
      (cpoll_wait_registries fuel native s0 w cpfd events maxevents timeout r hw).2 id cpi h
    rw [forall₂_entry_step_fds hall]
    exact ih id old hold

/-- C5: in every state reachable from start-up by `cpoll_create`,
`cpoll_close`, `cpoll_ctl` and `cpoll_wait`, no registry holds two entries with
the same handle; and some reachable state has one handle in the registries of
two different poll-sets. -/
theorem handle_once_per_poll_set :
    (∀ s, Reachable s → ∀ (id : Int) (cpi : cp_internal), s.cp_data id = some cpi →
      (cpi.map (fun f => f.fd)).Nodup) ∧
    (∃ s, Reachable s ∧ ∃ (id1 id2 fd : Int) (cpi1 cpi2 : cp_internal),
      id1 ≠ id2 ∧ s.cp_data id1 = some cpi1 ∧ s.cp_data id2 = some cpi2 ∧
      fd ∈ cpi1.map (fun f => f.fd) ∧ fd ∈ cpi2.map (fun f => f.fd)) := by
  refine ⟨reachable_handles_nodup, ex_shared, ex_shared_reachable, 1, 2, 7,
    [⟨7, ⟨0x31, 42⟩⟩], [⟨7, ⟨0x32, 43⟩⟩], by decide, ?_, ?_, by simp, by simp⟩
  · rw [ex_shared_eq]; rfl
  · rw [ex_shared_eq]; rfl

theorem handle_once_per_poll_set_witness :
    (([⟨7, ⟨0x31, 42⟩⟩] : cp_internal).map (fun f => f.fd)).Nodup :=
  handle_once_per_poll_set.1 ex_shared ex_shared_reachable 1 [⟨7, ⟨0x31, 42⟩⟩]
    (by rw [ex_shared_eq]; rfl)

/-! ## Identifier allocation and `cpoll_close` -/

/-- C6 (the code at the failing input): with the counter at `INT_MAX - 2` and
the poll-sets `INT_MAX - 1` and `INT_MAX` open, `cpoll_create` returns
`INT_MAX`, an identifier that was open before the call, and replaces the
registry of that poll-set by an empty one. -/
theorem create_reissues_open_id :
    ex_wrap.cp_data 2147483647 = some [⟨7, ⟨0x31, 42⟩⟩] ∧
    (cpoll_create ex_wrap 16).1 = 2147483647 ∧
    (cpoll_create ex_wrap 16).2.cp_data 2147483647 = some [] := by
  refine ⟨by decide, ?_, ?_⟩
  · simp [cpoll_create, ex_wrap, wrap32, create_scan, map_set]
  · simp [cpoll_create, ex_wrap, wrap32, create_scan, map_set]

/-- C7 (the code at the failing input): `cpoll_create` returns 0 when the
counter wraps, `cpoll_ctl` accepts 0 as an open poll-set, and `cpoll_close`
of the open poll-set 0 returns -1 and leaves it open. -/
theorem close_rejects_open_zero :
    (cpoll_create ex_before_zero 16).1 = 0 ∧
    (cpoll_create ex_before_zero 16).2.cp_data 0 = some [] ∧
    ex_zero.cp_data 0 = some [] ∧
    (cpoll_ctl ex_zero 0 CPOLL_CTL_ADD 7 ⟨1, 42⟩).1 = 0 ∧
    cpoll_close ex_zero 0 = (-1, ex_zero) := by
  refine ⟨?_, ?_, by decide, by decide, rfl⟩
  · simp [cpoll_create, ex_before_zero, wrap32, create_scan]
  · simp [cpoll_create, ex_before_zero, wrap32, create_scan, map_set]

/-! ## Closed identifiers -/

/-- The registry that `cpoll_create` makes is the one of the returned id. -/
theorem cpoll_create_registries_id (s : State) (size : Int) (j : Int) (out : cp_internal)
    (h : (cpoll_create s size).2.cp_data j = some out) :
    s.cp_data j = some out ∨ (cpoll_create s size).1 = j := by
  unfold cpoll_create at h ⊢
  by_cases hs : size < 0
  · rw [if_pos hs] at h
    exact Or.inl h
  · rw [if_neg hs] at h ⊢
    simp only at h ⊢
    generalize create_scan s.cp_data _ = id at h ⊢
    by_cases hid : id < 0
    · rw [if_pos hid] at h
      exact Or.inl h
    · rw [if_neg hid] at h ⊢
      simp only [map_set] at h
      split at h
      · rename_i hj
        exact Or.inr hj.symm
      · exact Or.inl h

theorem cpoll_close_absent (s : State) (id : Int) (h : (cpoll_close s id).1 = 0) :
    (cpoll_close s id).2.cp_data id = none := by
  unfold cpoll_close at h ⊢
  split
  · rename_i hc
    rw [if_pos hc] at h
    simp at h
  · simp [map_erase]

/-- An identifier that is not open stays so under calls that do not issue it. -/
theorem later_absent (id : Int) (s t : State) (hl : Later id s t)
    (h : s.cp_data id = none) : t.cp_data id = none := by
  induction hl with
  | refl => exact h
  | step t u c ret _ he hc ih =>
    cases hu : u.cp_data id with
    | none => rfl
    | some out =>
      exfalso
      cases c with
      | create size =>
        simp only [exec, Option.some.injEq] at he
        have h1 := cpoll_create_registries_id t size id out (by rw [he]; exact hu)
        rcases h1 with h1 | h1
        · rw [ih] at h1; cases h1
        · rw [he] at h1
          exact hc size rfl h1
      | close cpfd =>
        simp only [exec, Option.some.injEq] at he
        have h1 := cpoll_close_registries t cpfd id out (by rw [he]; exact hu)
        rw [ih] at h1; cases h1
      | ctl cpfd opcode fd event =>
        simp only [exec, Option.some.injEq] at he
        obtain ⟨cpi, h1, _⟩ :=
          (cpoll_ctl_registries t cpfd opcode fd event).2 id out (by rw [he]; exact hu)
        rw [ih] at h1; cases h1
      | wait fuel native w cpfd events maxevents timeout =>
        simp only [exec, Option.map_eq_some'] at he
        obtain ⟨r, hr, he2⟩ := he
        have e : r.state = u := congrArg Prod.snd he2
        obtain ⟨cpi, h1, _⟩ :=
          (cpoll_wait_registries fuel native t w cpfd events maxevents timeout r hr).2 id out
            (by rw [e]; exact hu)
        rw [ih] at h1; cases h1

theorem cpoll_ctl_not_open (s : State) (cpfd opcode fd : Int) (event : cpoll_event)
    (h : s.cp_data cpfd = none) : cpoll_ctl s cpfd opcode fd event = (-1, s) := by
  unfold cpoll_ctl
  split
  · rfl
  · rw [h]

theorem cpoll_wait_not_open (fuel : Nat) (native : Native) (s : State) (w : wsa_t)
    (cpfd : Int) (events : Nat → cpoll_event) (maxevents timeout : Int)
    (h : s.cp_data cpfd = none) :
    cpoll_wait fuel native s w cpfd events maxevents timeout = some ⟨-1, events, s, w⟩ := by
  unfold cpoll_wait
  split
  · rfl
  · rw [h]

/-- C8: when `cpoll_close` of `id` has succeeded, then in every later state,
as long as no `cpoll_create` has returned `id` again, every `cpoll_ctl` and
every `cpoll_wait` on `id` returns -1 and changes nothing (the globals, the
caller's array and the Winsock registrations stay as they are). -/
theorem closed_id_is_rejected (s : State) (id : Int) (hclose : (cpoll_close s id).1 = 0)
    (t : State) (hlater : Later id (cpoll_close s id).2 t) :
    (∀ opcode fd event, cpoll_ctl t id opcode fd event = (-1, t)) ∧
    (∀ fuel native w events maxevents timeout,
      cpoll_wait fuel native t w id events maxevents timeout = some ⟨-1, events, t, w⟩) := by
  have habs : t.cp_data id = none :=
    later_absent id _ t hlater (cpoll_close_absent s id hclose)
  exact ⟨fun opcode fd event => cpoll_ctl_not_open t id opcode fd event habs,
    fun fuel native w events maxevents timeout =>
      cpoll_wait_not_open fuel native t w id events maxevents timeout habs⟩

theorem ex_state_close_create :
    exec (cpoll_close ex_state 1).2 (Call.create 4)
      = some (2, { cp_next_id := 2,
                   cp_data := map_set (map_erase ex_state.cp_data 1) 2 [] }) := by
  simp [exec, cpoll_create, cpoll_close, ex_state, wrap32, create_scan, map_set, map_erase]

theorem closed_id_is_rejected_witness :
    cpoll_ctl { cp_next_id := 2, cp_data := map_set (map_erase ex_state.cp_data 1) 2 [] }
        1 CPOLL_CTL_ADD 7 ⟨1, 42⟩
      = (-1, { cp_next_id := 2, cp_data := map_set (map_erase ex_state.cp_data 1) 2 [] }) :=
  (closed_id_is_rejected ex_state 1 (by decide) _
    (Later.step _ _ _ (Call.create 4) 2 (Later.refl _) ex_state_close_create
      (fun _ _ => by decide))).1 CPOLL_CTL_ADD 7 ⟨1, 42⟩

/-! ## The result count of `cpoll_wait` -/

/-- The accept loop keeps `num_ready` within `maxevents` and writes only below
the new `num_ready`. -/
theorem wait_accept_bound (cpi : cp_internal) (maxevents : Int) (k i : Nat)
    (events : Nat → cpoll_event) (n : Nat) (hn : (n : Int) ≤ maxevents) :
    n ≤ (wait_accept cpi maxevents k i events n).2 ∧
    ((wait_accept cpi maxevents k i events n).2 : Int) ≤ maxevents ∧
    ∀ j, (wait_accept cpi maxevents k i events n).2 ≤ j →
      (wait_accept cpi maxevents k i events n).1 j = events j := by
  induction k generalizing i events n with
  | zero => simp [wait_accept, hn]
  | succ k ih =>
    simp only [wait_accept]
    cases cpi[i]? with
    | none => simp [hn]
    | some f =>
      simp only
      split
      · rename_i hlt
        obtain ⟨a, b, c⟩ := ih (i + 1)
          (buf_set events n { events := FD_CONNECT, data := f.event.data }) (n + 1)
          (by push_cast; omega)
        refine ⟨by omega, b, ?_⟩
        intro j hj
        rw [c j hj]
        have : j ≠ n := by omega
        simp [buf_set, this]
      · simp [hn]

/-- The poll loop, when it is left, has kept `num_ready` within `maxevents` and
has written only below it. -/
theorem wait_poll_bound (native : Native) (cpi : cp_internal) (maxevents : Int)
    (fuel j : Nat) (events : Nat → cpoll_event) (n : Nat) (hn : (n : Int) ≤ maxevents)
    (events1 : Nat → cpoll_event) (n1 wsa_result : Nat)
    (h : wait_poll native cpi maxevents fuel j events n = some (events1, n1, wsa_result)) :
    n ≤ n1 ∧ (n1 : Int) ≤ maxevents ∧ ∀ x, n1 ≤ x → events1 x = events x := by
  induction fuel generalizing j events n with
  | zero => simp [wait_poll] at h
  | succ fuel ih =>
    simp only [wait_poll] at h
    obtain ⟨a, b, c⟩ := wait_accept_bound cpi maxevents cpi.length 0 events n hn
    split at h
    · simp only [Option.some.injEq, Prod.mk.injEq] at h
      obtain ⟨h1, h2, _⟩ := h
      subst h1 h2
      exact ⟨a, b, c⟩
    · obtain ⟨a2, b2, c2⟩ := ih (j + 1) _ _ b h
      refine ⟨by omega, b2, ?_⟩
      intro x hx
      rw [c2 x hx, c x (by omega)]

/-- The enumeration loop keeps `num_ready` within `maxevents` and writes only
below the new `num_ready`. -/
theorem wait_enum_bound (native : Native) (maxevents : Int) (k i : Nat)
    (cpi : cp_internal) (events : Nat → cpoll_event) (n : Nat)
    (hn : (n : Int) ≤ maxevents) :
    n ≤ (wait_enum native maxevents k i cpi events n).num_ready ∧
    ((wait_enum native maxevents k i cpi events n).num_ready : Int) ≤ maxevents ∧
    ∀ j, (wait_enum native maxevents k i cpi events n).num_ready ≤ j →
      (wait_enum native maxevents k i cpi events n).events j = events j := by
  induction k generalizing i cpi events n with
  | zero => simp [wait_enum, hn]
  | succ k ih =>
    simp only [wait_enum]
    cases cpi[i]? with
    | none => simp [hn]
    | some f =>
      simp only
      split
      · cases native.enum_result i with
        | none => simp [hn]
        | some ne =>
          simp only
          split
          · obtain ⟨a, b, c⟩ := ih (i + 1)
              (if f.event.events &&& CPOLLONESHOT ≠ 0 then
                cpi.set i { fd := f.fd, event := { events := 0, data := f.event.data } }
              else cpi)
              (buf_set events n { events := get_cp_mask ne, data := f.event.data }) (n + 1)
              (by push_cast; omega)
            refine ⟨by omega, b, ?_⟩
            intro j hj
            rw [c j hj]
            have : j ≠ n := by omega
            simp [buf_set, this]
          · exact ih (i + 1) cpi events n hn
      · simp [hn]

/-- On a non-empty registry with room for a result, the accept loop reports
at least one entry. -/
theorem wait_accept_pos (cpi : cp_internal) (maxevents : Int) (events : Nat → cpoll_event)
    (hne : cpi ≠ []) (hmax : 1 ≤ maxevents) :
    0 < (wait_accept cpi maxevents cpi.length 0 events 0).2 := by
  cases cpi with
  | nil => exact absurd rfl hne
  | cons f rest =>
    simp only [List.length_cons, wait_accept, List.getElem?_cons_zero]
    have h0 : ((0 : Nat) : Int) < maxevents := by push_cast; omega
    rw [if_pos h0]
    have := (wait_accept_bound (f :: rest) maxevents rest.length (0 + 1)
      (buf_set events 0 { events := FD_CONNECT, data := f.event.data }) (0 + 1)
      (by push_cast; omega)).1
    omega

/-- C9: on an open poll-set, `cpoll_wait` with `maxevents < 1` returns -1 and
changes nothing; with `maxevents >= 1`, whatever Winsock does, a call that
returns a count `n` (not -1) has `0 <= n <= maxevents` and has left every slot
of the caller's array from index `n` on as it was. On a non-empty registry the
call does return (one iteration of the poll loop is enough). -/
theorem wait_count_within_capacity (fuel : Nat) (native : Native) (s : State) (w : wsa_t)
    (cpfd : Int) (events : Nat → cpoll_event) (maxevents timeout : Int)
    (cpi : cp_internal) (h0 : 0 ≤ cpfd) (hopen : s.cp_data cpfd = some cpi) :
    (maxevents < 1 →
      cpoll_wait fuel native s w cpfd events maxevents timeout = some ⟨-1, events, s, w⟩) ∧
    (1 ≤ maxevents → ∀ r,
      cpoll_wait fuel native s w cpfd events maxevents timeout = some r → r.ret ≠ -1 →
      0 ≤ r.ret ∧ r.ret ≤ maxevents ∧ ∀ j : Nat, r.ret ≤ (j : Int) → r.events j = events j) ∧
    (1 ≤ maxevents → cpi ≠ [] → 0 < fuel →
      ∃ r, cpoll_wait fuel native s w cpfd events maxevents timeout = some r) := by
  refine ⟨?_, ?_, ?_⟩
  · intro hlt
    simp [cpoll_wait, hlt]
  · intro hmax r h hret
    have hc : ¬ (cpfd < 0 ∨ maxevents < 1) := by omega
    obtain ⟨rret, revents, rstate, rwsa⟩ := r
    simp only at hret
    show 0 ≤ rret ∧ rret ≤ maxevents ∧ ∀ j : Nat, rret ≤ (j : Int) → revents j = events j
    unfold cpoll_wait at h
    rw [if_neg hc, hopen] at h
    simp only at h
    cases hp : wait_poll native cpi maxevents fuel 0 events 0 with
    | none => rw [hp] at h; cases h
    | some p =>
      obtain ⟨events1, n1, wsa_result⟩ := p
      rw [hp] at h
      simp only at h
      obtain ⟨_, b, c⟩ := wait_poll_bound native cpi maxevents fuel 0 events 0
        (by push_cast; omega) events1 n1 wsa_result hp
      split at h
      · obtain ⟨a2, b2, c2⟩ := wait_enum_bound native maxevents
          (cpi.length - to_size_type (wrap32 ((wsa_result : Int) - (WSA_WAIT_EVENT_0 : Int))))
          (to_size_type (wrap32 ((wsa_result : Int) - (WSA_WAIT_EVENT_0 : Int))))
          cpi events1 n1 b
        generalize wait_enum native maxevents
          (cpi.length - to_size_type (wrap32 ((wsa_result : Int) - (WSA_WAIT_EVENT_0 : Int))))
          (to_size_type (wrap32 ((wsa_result : Int) - (WSA_WAIT_EVENT_0 : Int))))
          cpi events1 n1 = er at h a2 b2 c2
        by_cases hf : er.failed = true
        · rw [if_pos hf] at h
          simp only [Option.some.injEq, wait_t.mk.injEq] at h
          exact absurd h.1.symm hret
        · rw [if_neg hf] at h
          simp only [Option.some.injEq, wait_t.mk.injEq] at h
          obtain ⟨h1, h2, _, _⟩ := h
          subst h1 h2
          refine ⟨Int.ofNat_nonneg _, b2, ?_⟩
          intro j hj
          have hj2 : er.num_ready ≤ j := by exact_mod_cast hj
          rw [c2 j hj2, c j (Nat.le_trans a2 hj2)]
      · simp only [Option.some.injEq, wait_t.mk.injEq] at h
        obtain ⟨h1, h2, _, _⟩ := h
        subst h1 h2
        refine ⟨Int.ofNat_nonneg _, b, ?_⟩
        intro j hj
        exact c j (by exact_mod_cast hj)
  · intro hmax hne hfuel
    have hc : ¬ (cpfd < 0 ∨ maxevents < 1) := by omega
    obtain ⟨fuel1, rfl⟩ : ∃ m, fuel = m + 1 := ⟨fuel - 1, by omega⟩
    have hpos := wait_accept_pos cpi maxevents events hne hmax
    unfold cpoll_wait
    rw [if_neg hc, hopen]
    simp only [wait_poll, gt_iff_lt, hpos, or_true, if_true]
    split
    · split
      · exact ⟨_, rfl⟩
      · exact ⟨_, rfl⟩
    · exact ⟨_, rfl⟩

theorem wait_count_within_capacity_witness :
    (∀ r, cpoll_wait 1 ex_native_read ex_three ⟨0, []⟩ 1 ex_events 2 (-1) = some r →
      r.ret ≠ -1 →
      0 ≤ r.ret ∧ r.ret ≤ 2 ∧ ∀ j : Nat, r.ret ≤ (j : Int) → r.events j = ex_events j) ∧
    (cpoll_wait 1 ex_native_read ex_three ⟨0, []⟩ 1 ex_events 2 (-1)).map (fun r => r.ret)
      = some 2 :=
  ⟨(wait_count_within_capacity 1 ex_native_read ex_three ⟨0, []⟩ 1 ex_events 2 (-1)
      [⟨7, ⟨0x31, 42⟩⟩, ⟨8, ⟨0x31, 43⟩⟩, ⟨9, ⟨0x31, 44⟩⟩] (by decide) rfl).2.1 (by decide),
   by decide⟩

/-! ## Waiting when nothing is ready -/

/-- On an empty registry the poll loop is left only when a wait slice does not
time out: while every slice times out it is still running, whatever the fuel. -/
theorem wait_poll_empty_idle (native : Native) (maxevents : Int)
    (hidle : ∀ j, native.wait_result j = WSA_WAIT_TIMEOUT) (fuel j : Nat)
    (events : Nat → cpoll_event) :
    wait_poll native [] maxevents fuel j events 0 = none := by
  induction fuel generalizing j events with
  | zero => rfl
  | succ fuel ih =>
    simp only [wait_poll, List.length_nil, wait_accept, hidle, ne_eq, not_true_eq_false,
      gt_iff_lt, Nat.lt_irrefl, or_self, if_false]
    exact ih (j + 1) events

/-- A `cpoll_wait` on an open, empty poll-set does not return while every wait
slice times out; the `timeout` argument makes no difference. -/
theorem cpoll_wait_empty_idle (native : Native) (s : State) (w : wsa_t) (cpfd : Int)
    (events : Nat → cpoll_event) (maxevents timeout : Int) (h0 : 0 ≤ cpfd)
    (hopen : s.cp_data cpfd = some []) (hmax : 1 ≤ maxevents)
    (hidle : ∀ j, native.wait_result j = WSA_WAIT_TIMEOUT) (fuel : Nat) :
    cpoll_wait fuel native s w cpfd events maxevents timeout = none := by
  have hc : ¬ (cpfd < 0 ∨ maxevents < 1) := by omega
  unfold cpoll_wait
  rw [if_neg hc, hopen]
  simp only [wait_poll_empty_idle native maxevents hidle]

/-- C10 (the code at the failing inputs): with every wait slice timing out and
no network event pending, `cpoll_wait` with timeout 0 on the poll-set of
`ex_state` (one watched socket) returns 1 and reports that socket with the mask
`FD_CONNECT`; and on the empty poll-set of `ex_empty` it has not returned
after any number of wait slices. -/
theorem wait_timeout_zero_idle :
    (cpoll_wait 1 ex_native_idle ex_state ⟨0, []⟩ 1 ex_events 4 0).map
        (fun r => (r.ret, r.events 0)) = some (1, ⟨FD_CONNECT, 42⟩) ∧
    (∀ fuel, cpoll_wait fuel ex_native_idle ex_empty ⟨0, []⟩ 1 ex_events 4 0 = none) :=
  ⟨by decide,
   fun fuel => cpoll_wait_empty_idle ex_native_idle ex_empty ⟨0, []⟩ 1 ex_events 4 0
     (by decide) rfl (by decide) (fun _ => rfl) fuel⟩

/-! ## The size hint of `cpoll_create` -/

/-- C14: `cpoll_create` with a negative size returns -1 and leaves the whole
state (counter included) unchanged; and any two non-negative sizes give the
same returned id and the same resulting state. -/
theorem create_size_hint (s : State) :
    (∀ size, size < 0 → cpoll_create s size = (-1, s)) ∧
    (∀ a b, 0 ≤ a → 0 ≤ b → cpoll_create s a = cpoll_create s b) := by
  constructor
  · intro size h
    unfold cpoll_create
    rw [if_pos h]
  · intro a b ha hb
    have na : ¬ a < 0 := by omega
    have nb : ¬ b < 0 := by omega
    unfold cpoll_create
    rw [if_neg na, if_neg nb]

theorem create_size_hint_witness :
    cpoll_create ex_state (-3) = (-1, ex_state) ∧
    cpoll_create ex_state 0 = cpoll_create ex_state 4096 :=
  ⟨(create_size_hint ex_state).1 (-3) (by decide),
   (create_size_hint ex_state).2 0 4096 (by decide) (by decide)⟩

/-! ## The codec -/

theorem and_two_pow_cases (m k : Nat) : m &&& 2 ^ k = 0 ∨ m &&& 2 ^ k = 2 ^ k := by
  by_cases h : m.testBit k = true
  · right
    apply Nat.eq_of_testBit_eq
    intro i
    rw [Nat.testBit_and, Nat.testBit_two_pow]
    by_cases hi : k = i
    · subst hi
      simp [h]
    · simp [hi]
  · left
    apply Nat.eq_of_testBit_eq
    intro i
    rw [Nat.testBit_and, Nat.testBit_two_pow]
    by_cases hi : k = i
    · subst hi
      simp [h]
    · simp [hi]

theorem and_in_cases (m : Nat) : m &&& CPOLLIN = 0 ∨ m &&& CPOLLIN = 1 :=
  and_two_pow_cases m 0

theorem and_out_cases (m : Nat) : m &&& CPOLLOUT = 0 ∨ m &&& CPOLLOUT = 2 :=
  and_two_pow_cases m 1

theorem and_hup_cases (m : Nat) : m &&& CPOLLHUP = 0 ∨ m &&& CPOLLHUP = 32 :=
  and_two_pow_cases m 5

theorem and_35_split (m : Nat) : m &&& 35 = ((m &&& 1) ||| (m &&& 2)) ||| (m &&& 32) := by
  rw [← Nat.and_or_distrib_left, ← Nat.and_or_distrib_left]
  have e : ((1 ||| 2) ||| 32 : Nat) = 35 := by decide
  rw [e]

/-- On numbers, `get_wsa_mask` keeps the bits 0x01, 0x02 and 0x20 (the values of
`FD_READ`, `FD_WRITE`, `FD_CLOSE` are those of `CPOLLIN`, `CPOLLOUT`,
`CPOLLHUP`). -/
theorem get_wsa_mask_eq_and (m : Nat) : get_wsa_mask m = m &&& 35 := by
  rw [and_35_split]
  have e1 : m &&& 1 = m &&& CPOLLIN := rfl
  have e2 : m &&& 2 = m &&& CPOLLOUT := rfl
  have e3 : m &&& 32 = m &&& CPOLLHUP := rfl
  rw [e1, e2, e3]
  unfold get_wsa_mask
  rcases and_in_cases m with h1 | h1 <;> rcases and_out_cases m with h2 | h2 <;>
    rcases and_hup_cases m with h3 | h3 <;>
    simp [h1, h2, h3, FD_READ, FD_WRITE, FD_CLOSE]

theorem and_35_and (m x : Nat) (hx : x &&& 35 = 0) :
    (m ||| x) &&& 35 = m &&& 35 ∧ clear_flag m x &&& 35 = m &&& 35 := by
  constructor
  · rw [Nat.and_distrib_right, hx, Nat.or_zero]
  · unfold clear_flag
    rw [Nat.and_xor_distrib_right, Nat.and_assoc, hx, Nat.and_zero, Nat.xor_zero]

/-- C16: `get_wsa_mask m` is the OR of `FD_READ` if `m` has `CPOLLIN`, `FD_WRITE`
if `m` has `CPOLLOUT` and `FD_CLOSE` if `m` has `CPOLLHUP`; setting or clearing
any of `CPOLLRDHUP`, `CPOLLPRI`, `CPOLLERR`, `CPOLLET`, `CPOLLONESHOT` in `m`
does not change the result. The function is defined on every mask. -/
theorem get_wsa_mask_three_flags (m : Nat) :
    get_wsa_mask m
      = ((if m &&& CPOLLIN ≠ 0 then FD_READ else 0) |||
          (if m &&& CPOLLOUT ≠ 0 then FD_WRITE else 0)) |||
          (if m &&& CPOLLHUP ≠ 0 then FD_CLOSE else 0) ∧
    ∀ x, x ∈ [CPOLLRDHUP, CPOLLPRI, CPOLLERR, CPOLLET, CPOLLONESHOT] →
      get_wsa_mask (m ||| x) = get_wsa_mask m ∧
      get_wsa_mask (clear_flag m x) = get_wsa_mask m := by
  constructor
  · unfold get_wsa_mask
    rcases and_in_cases m with h1 | h1 <;> rcases and_out_cases m with h2 | h2 <;>
      rcases and_hup_cases m with h3 | h3 <;>
      simp [h1, h2, h3, FD_READ, FD_WRITE, FD_CLOSE]
  · intro x hx
    have h0 : x &&& 35 = 0 := by
      simp only [List.mem_cons, List.mem_singleton, List.not_mem_nil, or_false] at hx
      rcases hx with rfl | rfl | rfl | rfl | rfl <;> decide
    rw [get_wsa_mask_eq_and, get_wsa_mask_eq_and, get_wsa_mask_eq_and]
    exact and_35_and m x h0

theorem get_wsa_mask_three_flags_witness :
    get_wsa_mask (0xB1 ||| CPOLLET) = get_wsa_mask 0xB1 ∧
    get_wsa_mask (clear_flag 0xB1 CPOLLONESHOT) = get_wsa_mask 0xB1 :=
  ⟨((get_wsa_mask_three_flags 0xB1).2 CPOLLET (by decide)).1,
   ((get_wsa_mask_three_flags 0xB1).2 CPOLLONESHOT (by decide)).2⟩

/-- C11 (the code at the failing input): on `ex_oneshot` (socket 7 stored with
`CPOLLIN | CPOLLONESHOT | CPOLLHUP | CPOLLERR`, tag 42) a `cpoll_wait` with
capacity 1, while Winsock is idle, returns 1 and reports the entry (tag 42),
and the stored mask of the entry is still 0xB1, not 0. -/
theorem oneshot_kept_by_accept_report :
    (0xB1 &&& CPOLLONESHOT ≠ 0) ∧
    (cpoll_wait 1 ex_native_idle ex_oneshot ⟨0, []⟩ 1 ex_events 1 0).map
        (fun r => (r.ret, r.events 0, r.state.cp_data 1))
      = some (1, ⟨FD_CONNECT, 42⟩, some [⟨7, ⟨0xB1, 42⟩⟩]) := by
  rw [ex_oneshot_eq]
  exact ⟨by decide, by decide⟩

/-- C12 (the code at the failing input): on `ex_oneshot` a first `cpoll_wait`
(capacity 2, `FD_READ` signalled) reports the one-shot entry of socket 7 and
stores the mask 0 for it; a second `cpoll_wait` right after it (capacity 1,
Winsock idle, no `CPOLL_CTL_MOD` in between) returns 1 and reports tag 42
again. -/
theorem oneshot_reported_again :
    (cpoll_wait 1 ex_native_read ex_oneshot ⟨0, []⟩ 1 ex_events 2 0).bind
        (fun r1 =>
          (cpoll_wait 1 ex_native_idle r1.state r1.wsa 1 ex_events 1 0).map
            (fun r2 => (r1.ret, r1.events 1, r1.state.cp_data 1, r2.ret, r2.events 0)))
      = some (2, ⟨CPOLLIN, 42⟩, some [⟨7, ⟨0, 42⟩⟩], 1, ⟨FD_CONNECT, 42⟩) := by
  rw [ex_oneshot_eq]
  decide

/-- C13 (the code at the failing input): on a poll-set whose only entry is the
listening socket 7 (interest `CPOLLIN`, tag 42), with Winsock reporting no
event, `cpoll_wait` with capacity 4 and timeout 1000 returns exactly one result
with tag 42; its mask is `FD_CONNECT` = 0x10, in which `CPOLLIN` is not set
(0x10 is the value of `CPOLLERR`). -/
theorem listening_socket_mask_is_fd_connect :
    (cpoll_wait 1 ex_native_idle ex_listening ⟨0, []⟩ 1 ex_events 4 1000).map
        (fun r => (r.ret, r.events 0)) = some (1, ⟨FD_CONNECT, 42⟩) ∧
    FD_CONNECT &&& CPOLLIN = 0 ∧ FD_CONNECT = CPOLLERR := by
  decide

/-! ## Winsock registrations -/

/-- C18 (the code at the failing input): when `WSAEnumNetworkEvents` fails,
`cpoll_wait` returns -1 and leaves the event object it created open and socket
7 registered; on the return with results the same registrations are undone. -/
theorem enum_failure_leaks_registrations :
    (cpoll_wait 1 ex_native_enum_fails ex_state ⟨0, []⟩ 1 ex_events 2 0).map
        (fun r => (r.ret, r.wsa)) = some (-1, ⟨1, [7]⟩) ∧
    (cpoll_wait 1 ex_native_read ex_state ⟨0, []⟩ 1 ex_events 2 0).map
        (fun r => (r.ret, r.wsa)) = some (2, ⟨0, []⟩) := by
  decide

/-! ## What `cpoll_wait` leaves of the registry -/

/-- A returned `cpoll_wait` on an open poll-set leaves the globals as they were,
or replaces the registry of `cpfd` by one that differs by cleared one-shot
masks only. -/
theorem cpoll_wait_frame (fuel : Nat) (native : Native) (s : State) (w : wsa_t)
    (cpfd : Int) (events : Nat → cpoll_event) (maxevents timeout : Int) (r : wait_t)
    (cpi : cp_internal) (hopen : s.cp_data cpfd = some cpi)
    (h : cpoll_wait fuel native s w cpfd events maxevents timeout = some r) :
    r.state = s ∨
    ∃ out, List.Forall₂ entry_step cpi out ∧
      r.state = { s with cp_data := map_set s.cp_data cpfd out } := by
  unfold cpoll_wait at h
  split at h
  · cases h; exact Or.inl rfl
  · rw [hopen] at h
    simp only at h
    split at h
    · cases h
    · split at h
      · split at h
        all_goals
          cases h
          exact Or.inr ⟨_, wait_enum_entries _ _ _ _ _ _ _, rfl⟩
      · cases h; exact Or.inl rfl

theorem forall₂_entry_step_tags {a b : cp_internal} (x : List.Forall₂ entry_step a b) :
    b.map (fun f => (f.fd, f.event.data)) = a.map (fun f => (f.fd, f.event.data)) := by
  induction x with
  | nil => rfl
  | cons h _ ih =>
    simp only [List.map_cons, ih, List.cons.injEq, and_true]
    rcases h with rfl | ⟨_, rfl⟩ <;> rfl

theorem forall₂_entry_step_getElem? {a b : cp_internal} (x : List.Forall₂ entry_step a b)
    (i : Nat) (f g : fd_t) (hf : a[i]? = some f) (hg : b[i]? = some g) : entry_step f g := by
  induction x generalizing i with
  | nil => simp at hf
  | cons h _ ih =>
    cases i with
    | zero =>
      simp only [List.getElem?_cons_zero, Option.some.injEq] at hf hg
      subst hf hg
      exact h
    | succ i =>
      simp only [List.getElem?_cons_succ] at hf hg
      exact ih i hf hg

/-- C15: after any returned `cpoll_wait` on an open poll-set (with a count, with
0, or with -1), whatever Winsock does, the registry of the poll-set has the
same length and the same (handle, tag) pairs in the same order, every stored
mask is unchanged or has become 0, the latter only where the mask carried
`CPOLLONESHOT` before; every other poll-set and the id counter are
unchanged. -/
theorem wait_registry_frame (fuel : Nat) (native : Native) (s : State) (w : wsa_t)
    (cpfd : Int) (events : Nat → cpoll_event) (maxevents timeout : Int) (r : wait_t)
    (cpi : cp_internal) (hopen : s.cp_data cpfd = some cpi)
    (h : cpoll_wait fuel native s w cpfd events maxevents timeout = some r) :
    ∃ out, r.state.cp_data cpfd = some out ∧ out.length = cpi.length ∧
      out.map (fun f => (f.fd, f.event.data)) = cpi.map (fun f => (f.fd, f.event.data)) ∧
      (∀ (i : Nat) (f g : fd_t), cpi[i]? = some f → out[i]? = some g →
        g.event.events = f.event.events ∨
        (g.event.events = 0 ∧ f.event.events &&& CPOLLONESHOT ≠ 0)) ∧
      (∀ j, j ≠ cpfd → r.state.cp_data j = s.cp_data j) ∧
      r.state.cp_next_id = s.cp_next_id := by
  have key : ∀ out, List.Forall₂ entry_step cpi out →
      out.length = cpi.length ∧
      out.map (fun f => (f.fd, f.event.data)) = cpi.map (fun f => (f.fd, f.event.data)) ∧
      (∀ (i : Nat) (f g : fd_t), cpi[i]? = some f → out[i]? = some g →
        g.event.events = f.event.events ∨
        (g.event.events = 0 ∧ f.event.events &&& CPOLLONESHOT ≠ 0)) := by
    intro out hall
    refine ⟨hall.length_eq.symm, forall₂_entry_step_tags hall, ?_⟩
    intro i f g hf hg
    rcases forall₂_entry_step_getElem? hall i f g hf hg with rfl | ⟨h1, rfl⟩
    · exact Or.inl rfl
    · exact Or.inr ⟨rfl, h1⟩
  rcases cpoll_wait_frame fuel native s w cpfd events maxevents timeout r cpi hopen h with
    e | ⟨out, hall, e⟩
  · rw [e]
    obtain ⟨k1, k2, k3⟩ := key cpi (forall₂_entry_step_refl cpi)
    exact ⟨cpi, hopen, k1, k2, k3, fun _ _ => rfl, rfl⟩
  · rw [e]
    obtain ⟨k1, k2, k3⟩ := key out hall
    exact ⟨out, map_set_same _ _ _, k1, k2, k3,
      fun j hj => map_set_other _ _ _ _ hj, rfl⟩

theorem wait_registry_frame_witness :
    ∃ r, cpoll_wait 1 ex_native_read ex_three ⟨0, []⟩ 1 ex_events 8 0 = some r ∧
      ∃ out, r.state.cp_data 1 = some out ∧ out.length = 3 := by
  cases hw : cpoll_wait 1 ex_native_read ex_three ⟨0, []⟩ 1 ex_events 8 0 with
  | none =>
    have hs : (cpoll_wait 1 ex_native_read ex_three ⟨0, []⟩ 1 ex_events 8 0).isSome = true := by
      decide
    rw [hw] at hs
    cases hs
  | some r =>
    obtain ⟨out, h1, h2, _⟩ :=
      wait_registry_frame 1 ex_native_read ex_three ⟨0, []⟩ 1 ex_events 8 0 r
        [⟨7, ⟨0x31, 42⟩⟩, ⟨8, ⟨0x31, 43⟩⟩, ⟨9, ⟨0x31, 44⟩⟩] rfl hw
    exact ⟨r, rfl, out, h1, h2⟩

/-! ## The records written by the two result loops -/

theorem enum_start_eq (e : Nat) (he : e < 4294967296) :
    enum_start (WSA_WAIT_EVENT_0 + e) = e := by
  simp only [enum_start, to_size_type, wrap32, WSA_WAIT_EVENT_0]
  omega

/-- The accept loop, entered with `num_ready = i` at index `i`: it reports the
entries `i, i+1, ..` in the slots of the same index until the capacity is
reached, and leaves the slots below `i` alone. -/
theorem wait_accept_records (cpi : cp_internal) (maxevents : Int) (k i : Nat)
    (events : Nat → cpoll_event) (hk : i + k ≤ cpi.length) (hi : (i : Int) ≤ maxevents) :
    (wait_accept cpi maxevents k i events i).2 = min (i + k) maxevents.toNat ∧
    (∀ j, j < i → (wait_accept cpi maxevents k i events i).1 j = events j) ∧
    (∀ j f, i ≤ j → j < min (i + k) maxevents.toNat → cpi[j]? = some f →
      (wait_accept cpi maxevents k i events i).1 j = ⟨FD_CONNECT, f.event.data⟩) := by
  induction k generalizing i events with
  | zero =>
    refine ⟨?_, ?_, ?_⟩
    · simp only [wait_accept]
      omega
    · intro j _
      simp only [wait_accept]
    · intro j f h1 h2
      omega
  | succ k ih =>
    have hlt : i < cpi.length := by omega
    simp only [wait_accept, List.getElem?_eq_getElem hlt]
    by_cases hc : (i : Int) < maxevents
    · rw [if_pos hc]
      obtain ⟨a, b, c⟩ := ih (i + 1)
        (buf_set events i { events := FD_CONNECT, data := (cpi[i]).event.data })
        (by omega) (by push_cast; omega)
      refine ⟨by rw [a]; omega, ?_, ?_⟩
      · intro j hj
        rw [b j (by omega)]
        have : j ≠ i := by omega
        simp [buf_set, this]
      · intro j f h1 h2 hf
        by_cases hji : j = i
        · subst hji
          rw [b j (by omega)]
          rw [List.getElem?_eq_getElem hlt] at hf
          simp only [Option.some.injEq] at hf
          subst hf
          simp [buf_set]
        · exact c j f (by omega) (by omega) hf
    · rw [if_neg hc]
      refine ⟨by omega, fun _ _ => rfl, ?_⟩
      intro j f h1 h2
      omega

/-- The enumeration loop leaves the slots below its starting `num_ready`
alone. -/
theorem wait_enum_keeps_low (native : Native) (maxevents : Int) (k i : Nat)
    (cpi : cp_internal) (events : Nat → cpoll_event) (n : Nat) (j : Nat) (hj : j < n) :
    (wait_enum native maxevents k i cpi events n).events j = events j := by
  induction k generalizing i cpi events n with
  | zero => simp [wait_enum]
  | succ k ih =>
    simp only [wait_enum]
    cases cpi[i]? with
    | none => rfl
    | some f =>
      simp only
      split
      · cases native.enum_result i with
        | none => rfl
        | some ne =>
          simp only
          split
          · rw [ih (i + 1) _ _ (n + 1) (by omega)]
            have : j ≠ n := by omega
            simp [buf_set, this]
          · exact ih (i + 1) cpi events n hj
      · rfl

/-- The enumeration loop leaves an entry as it is when its index is below the
index reached, or when no network event is pending on it. -/
theorem wait_enum_keeps_entry (native : Native) (maxevents : Int) (k i : Nat)
    (cpi : cp_internal) (events : Nat → cpoll_event) (n : Nat) (j : Nat)
    (hj : j < i ∨ native.enum_result j = some 0) :
    (wait_enum native maxevents k i cpi events n).cpi[j]? = cpi[j]? := by
  induction k generalizing i cpi events n with
  | zero => simp [wait_enum]
  | succ k ih =>
    simp only [wait_enum]
    cases cpi[i]? with
    | none => rfl
    | some f =>
      simp only
      split
      · cases hne : native.enum_result i with
        | none => rfl
        | some ne =>
          simp only
          have hj2 : j < i + 1 ∨ native.enum_result j = some 0 := by
            rcases hj with h | h
            · exact Or.inl (by omega)
            · exact Or.inr h
          split
          · rename_i hnz
            rw [ih (i + 1) _ _ (n + 1) hj2]
            split
            · have hji : i ≠ j := by
                intro e
                subst e
                rcases hj with h | h
                · omega
                · rw [h] at hne
                  simp only [Option.some.injEq] at hne
                  exact hnz hne.symm
              exact List.getElem?_set_ne hji
            · rfl
          · exact ih (i + 1) cpi events n hj2
      · rfl

/-- A returned `cpoll_wait` on a non-empty registry with `maxevents >= 1`: the
poll loop is left after its first iteration, with the records of the accept
loop; then either the slice timed out and nothing else happens, or the
enumeration loop runs from `enum_start`. -/
theorem cpoll_wait_nonempty (fuel : Nat) (native : Native) (s : State) (w : wsa_t)
    (cpfd : Int) (events : Nat → cpoll_event) (maxevents timeout : Int) (r : wait_t)
    (cpi : cp_internal) (h0 : 0 ≤ cpfd) (hopen : s.cp_data cpfd = some cpi)
    (hne : cpi ≠ []) (hmax : 1 ≤ maxevents)
    (h : cpoll_wait fuel native s w cpfd events maxevents timeout = some r) :
    (native.wait_result 0 = WSA_WAIT_TIMEOUT ∧
      r.ret = ((wait_accept cpi maxevents cpi.length 0 events 0).2 : Int) ∧
      r.events = (wait_accept cpi maxevents cpi.length 0 events 0).1 ∧ r.state = s) ∨
    (native.wait_result 0 ≠ WSA_WAIT_TIMEOUT ∧
      r.events = (wait_enum native maxevents
        (cpi.length - enum_start (native.wait_result 0)) (enum_start (native.wait_result 0))
        cpi (wait_accept cpi maxevents cpi.length 0 events 0).1
        (wait_accept cpi maxevents cpi.length 0 events 0).2).events ∧
      r.state = { s with cp_data := map_set s.cp_data cpfd (wait_enum native maxevents
        (cpi.length - enum_start (native.wait_result 0)) (enum_start (native.wait_result 0))
        cpi (wait_accept cpi maxevents cpi.length 0 events 0).1
        (wait_accept cpi maxevents cpi.length 0 events 0).2).cpi } ∧
      (((wait_enum native maxevents
        (cpi.length - enum_start (native.wait_result 0)) (enum_start (native.wait_result 0))
        cpi (wait_accept cpi maxevents cpi.length 0 events 0).1
        (wait_accept cpi maxevents cpi.length 0 events 0).2).failed = true ∧ r.ret = -1) ∨
       ((wait_enum native maxevents
        (cpi.length - enum_start (native.wait_result 0)) (enum_start (native.wait_result 0))
        cpi (wait_accept cpi maxevents cpi.length 0 events 0).1
        (wait_accept cpi maxevents cpi.length 0 events 0).2).failed = false ∧
        r.ret = ((wait_enum native maxevents
          (cpi.length - enum_start (native.wait_result 0)) (enum_start (native.wait_result 0))
          cpi (wait_accept cpi maxevents cpi.length 0 events 0).1
          (wait_accept cpi maxevents cpi.length 0 events 0).2).num_ready : Int)))) := by
  have hc : ¬ (cpfd < 0 ∨ maxevents < 1) := by omega
  have hpos := wait_accept_pos cpi maxevents events hne hmax
  obtain ⟨rret, revents, rstate, rwsa⟩ := r
  cases fuel with
  | zero =>
    unfold cpoll_wait at h
    rw [if_neg hc, hopen] at h
    simp [wait_poll] at h
  | succ fuel =>
    unfold cpoll_wait at h
    rw [if_neg hc, hopen] at h
    simp only [wait_poll, gt_iff_lt, hpos, or_true, if_true] at h
    unfold enum_start
    generalize wait_accept cpi maxevents cpi.length 0 events 0 = a at h ⊢
    by_cases ht : native.wait_result 0 = WSA_WAIT_TIMEOUT
    · left
      simp only [ht, ne_eq, not_true_eq_false, if_false, Option.some.injEq,
        wait_t.mk.injEq] at h
      exact ⟨ht, h.1.symm, h.2.1.symm, h.2.2.1.symm⟩
    · right
      simp only [ne_eq, ht, not_false_eq_true, if_true] at h
      generalize wait_enum native maxevents
        (cpi.length - to_size_type (wrap32 ((native.wait_result 0 : Int) - (WSA_WAIT_EVENT_0 : Int))))
        (to_size_type (wrap32 ((native.wait_result 0 : Int) - (WSA_WAIT_EVENT_0 : Int))))
        cpi a.1 a.2 = er at h ⊢
      by_cases hf : er.failed = true
      · rw [if_pos hf] at h
        simp only [Option.some.injEq, wait_t.mk.injEq] at h
        exact ⟨ht, h.2.1.symm, h.2.2.1.symm, Or.inl ⟨hf, h.1.symm⟩⟩
      · rw [if_neg hf] at h
        simp only [Option.some.injEq, wait_t.mk.injEq] at h
        exact ⟨ht, h.2.1.symm, h.2.2.1.symm,
          Or.inr ⟨by simpa using hf, h.1.symm⟩⟩

theorem pending_indices_ge (native : Native) (a k m x : Nat)
    (h : x ∈ (pending_indices native (List.range' a k)).take m) : a ≤ x := by
  have h1 := List.mem_of_mem_take h
  simp only [pending_indices, List.mem_filter, List.mem_range'_1] at h1
  exact h1.1.1

/-- The registry after an enumeration loop that was not left through
`return -1`: an entry is stored with the mask 0 when the loop reported it and
it carried `CPOLLONESHOT`, and every other entry is stored as before. The
entries reported are the first `maxevents - num_ready` ones with pending
network events. -/
theorem wait_enum_cpi_exact (native : Native) (maxevents : Int) (k i : Nat)
    (cpi : cp_internal) (events : Nat → cpoll_event) (n : Nat)
    (hk : k = 0 ∨ i + k ≤ cpi.length) (hn : (n : Int) ≤ maxevents)
    (hf : (wait_enum native maxevents k i cpi events n).failed = false)
    (j : Nat) (f : fd_t) (hj : cpi[j]? = some f) :
    (wait_enum native maxevents k i cpi events n).cpi[j]?
      = some (if j ∈ (pending_indices native (List.range' i k)).take (maxevents.toNat - n) ∧
                f.event.events &&& CPOLLONESHOT ≠ 0 then
              { fd := f.fd, event := { events := 0, data := f.event.data } }
            else f) := by
  induction k generalizing i cpi events n f with
  | zero => simp [wait_enum, pending_indices, hj]
  | succ k ih =>
    have hlt : i < cpi.length := by omega
    simp only [wait_enum, List.getElem?_eq_getElem hlt] at hf ⊢
    rw [List.range'_succ]
    by_cases hc : (n : Int) < maxevents
    · rw [if_pos hc] at hf ⊢
      cases hne : native.enum_result i with
      | none =>
        rw [hne] at hf
        simp at hf
      | some ne =>
        rw [hne] at hf
        simp only at hf ⊢
        by_cases hz : ne ≠ 0
        · rw [if_pos hz] at hf ⊢
          have hpend : pending_indices native (i :: List.range' (i + 1) k)
              = i :: pending_indices native (List.range' (i + 1) k) := by
            simp [pending_indices, List.filter_cons, hne, hz]
          have hroom : maxevents.toNat - n = (maxevents.toNat - (n + 1)) + 1 := by omega
          rw [hpend, hroom, List.take_succ_cons]
          have hnot : i ∉ (pending_indices native (List.range' (i + 1) k)).take
              (maxevents.toNat - (n + 1)) := by
            intro hmem
            have := pending_indices_ge native (i + 1) k _ i hmem
            omega
          by_cases hos : (cpi[i]).event.events &&& CPOLLONESHOT ≠ 0
          · simp only [if_pos hos] at hf ⊢
            by_cases hji : j = i
            · subst hji
              rw [List.getElem?_eq_getElem hlt] at hj
              simp only [Option.some.injEq] at hj
              subst hj
              rw [ih (j + 1) _ _ (n + 1) (Or.inr (by simp only [List.length_set]; omega))
                (by push_cast; omega) hf
                { fd := (cpi[j]).fd, event := { events := 0, data := (cpi[j]).event.data } }
                (by simp [hlt])]
              simp [hnot, hos]
            · rw [ih (i + 1) _ _ (n + 1) (Or.inr (by simp only [List.length_set]; omega))
                (by push_cast; omega) hf f
                (by rw [List.getElem?_set_ne (fun e => hji e.symm)]; exact hj)]
              simp [hji]
          · simp only [if_neg hos] at hf ⊢
            rw [ih (i + 1) _ _ (n + 1) (Or.inr (by omega)) (by push_cast; omega) hf f hj]
            by_cases hji : j = i
            · subst hji
              rw [List.getElem?_eq_getElem hlt] at hj
              simp only [Option.some.injEq] at hj
              subst hj
              simp [hnot, hos]
            · simp [hji]
        · have hz0 : ne = 0 := by
            by_contra hcon
            exact hz hcon
          subst hz0
          rw [if_neg hz] at hf ⊢
          have hpend : pending_indices native (i :: List.range' (i + 1) k)
              = pending_indices native (List.range' (i + 1) k) := by
            simp [pending_indices, List.filter_cons, hne]
          rw [hpend]
          exact ih (i + 1) cpi events n (Or.inr (by omega)) hn hf f hj
    · rw [if_neg hc]
      have hroom : maxevents.toNat - n = 0 := by omega
      rw [hroom]
      simp [hj]

/-- C19: on an open poll-set with `n >= 1` entries and `maxevents = c >= 1`,
whatever Winsock does and whatever the timeout, a `cpoll_wait` that returns a
count `k` has `k >= min n c`; result `i` is (`FD_CONNECT`, tag of entry `i`)
for every `i < min n c`; and these records change no stored mask: when the
wait slice times out the globals are unchanged (and `k = min n c`), and in
every case the registry after the call has the same length and holds, at every
index, the entry as it was, except that an entry reported by the enumeration
loop (`enum_reported`) that carried `CPOLLONESHOT` is stored with the mask 0.
In particular an entry that is not reported by the enumeration loop (also when
the capacity is used up by the synthesized records), one below the enumeration
start, and one without pending network events are stored as before. -/
theorem synthesized_records_first (fuel : Nat) (native : Native) (s : State) (w : wsa_t)
    (cpfd : Int) (events : Nat → cpoll_event) (maxevents timeout : Int) (r : wait_t)
    (cpi : cp_internal) (h0 : 0 ≤ cpfd) (hopen : s.cp_data cpfd = some cpi)
    (hne : cpi ≠ []) (hmax : 1 ≤ maxevents)
    (h : cpoll_wait fuel native s w cpfd events maxevents timeout = some r)
    (hret : r.ret ≠ -1) :
    ((min cpi.length maxevents.toNat : Nat) : Int) ≤ r.ret ∧
    (∀ (i : Nat) (f : fd_t), cpi[i]? = some f → (i : Int) < maxevents →
      r.events i = ⟨FD_CONNECT, f.event.data⟩) ∧
    (native.wait_result 0 = WSA_WAIT_TIMEOUT →
      r.state = s ∧ r.ret = ((min cpi.length maxevents.toNat : Nat) : Int)) ∧
    (∃ out, r.state.cp_data cpfd = some out ∧ out.length = cpi.length ∧
      (∀ (i : Nat) (f : fd_t), cpi[i]? = some f →
        out[i]? = some (if i ∈ enum_reported native cpi.length maxevents ∧
                          f.event.events &&& CPOLLONESHOT ≠ 0 then
                        { fd := f.fd, event := { events := 0, data := f.event.data } }
                      else f)) ∧
      (∀ i : Nat, i ∉ enum_reported native cpi.length maxevents → out[i]? = cpi[i]?) ∧
      (∀ i : Nat, (i < enum_start (native.wait_result 0) ∨ native.enum_result i = some 0) →
        out[i]? = cpi[i]?)) := by
  obtain ⟨a1, a2, a3⟩ := wait_accept_records cpi maxevents cpi.length 0 events
    (by omega) (by push_cast; omega)
  simp only [Nat.zero_add] at a1 a3
  have hb : (((wait_accept cpi maxevents cpi.length 0 events 0).2 : Nat) : Int) ≤ maxevents := by
    rw [a1]
    omega
  have hrec : ∀ (i : Nat) (f : fd_t), cpi[i]? = some f → (i : Int) < maxevents →
      (wait_accept cpi maxevents cpi.length 0 events 0).1 i = ⟨FD_CONNECT, f.event.data⟩ := by
    intro i f hf hi
    have hlen : i < cpi.length := by
      by_contra hcon
      rw [List.getElem?_eq_none (by omega)] at hf
      cases hf
    exact a3 i f (Nat.zero_le _) (by omega) hf
  have hfrom : ∀ out : cp_internal, out.length = cpi.length →
      (∀ (i : Nat) (f : fd_t), cpi[i]? = some f →
        out[i]? = some (if i ∈ enum_reported native cpi.length maxevents ∧
                          f.event.events &&& CPOLLONESHOT ≠ 0 then
                        { fd := f.fd, event := { events := 0, data := f.event.data } }
                      else f)) →
      ∀ i : Nat, i ∉ enum_reported native cpi.length maxevents → out[i]? = cpi[i]? := by
    intro out hlen hex i hi
    cases hci : cpi[i]? with
    | none =>
      rw [List.getElem?_eq_none_iff] at hci ⊢
      omega
    | some f =>
      rw [hex i f hci]
      simp [hi]
  rcases cpoll_wait_nonempty fuel native s w cpfd events maxevents timeout r cpi h0 hopen
    hne hmax h with ⟨ht, e1, e2, e3⟩ | ⟨ht, e2, e3, e4⟩
  · have hex : ∀ (i : Nat) (f : fd_t), cpi[i]? = some f →
        cpi[i]? = some (if i ∈ enum_reported native cpi.length maxevents ∧
                          f.event.events &&& CPOLLONESHOT ≠ 0 then
                        { fd := f.fd, event := { events := 0, data := f.event.data } }
                      else f) := by
      intro i f hf
      simp [enum_reported, ht, hf]
    refine ⟨by rw [e1, a1], ?_, fun _ => ⟨e3, by rw [e1, a1]⟩, cpi, by rw [e3]; exact hopen,
      rfl, hex, hfrom cpi rfl hex, fun _ _ => rfl⟩
    intro i f hf hi
    rw [e2]
    exact hrec i f hf hi
  · rcases e4 with ⟨_, e5⟩ | ⟨hfail, e5⟩
    · exact absurd e5 hret
    · obtain ⟨b1, _, _⟩ := wait_enum_bound native maxevents
        (cpi.length - enum_start (native.wait_result 0)) (enum_start (native.wait_result 0))
        cpi (wait_accept cpi maxevents cpi.length 0 events 0).1
        (wait_accept cpi maxevents cpi.length 0 events 0).2 hb
      have hlen := (wait_enum_entries native maxevents
        (cpi.length - enum_start (native.wait_result 0)) (enum_start (native.wait_result 0))
        cpi (wait_accept cpi maxevents cpi.length 0 events 0).1
        (wait_accept cpi maxevents cpi.length 0 events 0).2).length_eq
      have hex := fun (i : Nat) (f : fd_t) (hf : cpi[i]? = some f) =>
        wait_enum_cpi_exact native maxevents
          (cpi.length - enum_start (native.wait_result 0)) (enum_start (native.wait_result 0))
          cpi (wait_accept cpi maxevents cpi.length 0 events 0).1
          (wait_accept cpi maxevents cpi.length 0 events 0).2 (by omega) hb hfail i f hf
      have hkeep := fun (i : Nat)
          (hi : i < enum_start (native.wait_result 0) ∨ native.enum_result i = some 0) =>
        wait_enum_keeps_entry native maxevents
          (cpi.length - enum_start (native.wait_result 0)) (enum_start (native.wait_result 0))
          cpi (wait_accept cpi maxevents cpi.length 0 events 0).1
          (wait_accept cpi maxevents cpi.length 0 events 0).2 i hi
      have hlow := fun (i : Nat)
          (hi : i < (wait_accept cpi maxevents cpi.length 0 events 0).2) =>
        wait_enum_keeps_low native maxevents
          (cpi.length - enum_start (native.wait_result 0)) (enum_start (native.wait_result 0))
          cpi (wait_accept cpi maxevents cpi.length 0 events 0).1
          (wait_accept cpi maxevents cpi.length 0 events 0).2 i hi
      generalize wait_enum native maxevents
        (cpi.length - enum_start (native.wait_result 0)) (enum_start (native.wait_result 0))
        cpi (wait_accept cpi maxevents cpi.length 0 events 0).1
        (wait_accept cpi maxevents cpi.length 0 events 0).2 = er
        at e2 e3 e5 b1 hlen hex hkeep hlow
      generalize wait_accept cpi maxevents cpi.length 0 events 0 = a
        at a1 hrec b1 hex hlow
      rw [a1] at hex hlow b1
      have hex2 : ∀ (i : Nat) (f : fd_t), cpi[i]? = some f →
          er.cpi[i]? = some (if i ∈ enum_reported native cpi.length maxevents ∧
                            f.event.events &&& CPOLLONESHOT ≠ 0 then
                          { fd := f.fd, event := { events := 0, data := f.event.data } }
                        else f) := by
        intro i f hf
        rw [hex i f hf]
        simp only [enum_reported, if_neg ht]
      refine ⟨?_, ?_, fun hto => absurd hto ht, er.cpi, by rw [e3]; exact map_set_same _ _ _,
        hlen.symm, hex2, hfrom er.cpi hlen.symm hex2, hkeep⟩
      · rw [e5]
        exact Int.ofNat_le.mpr b1
      · intro i f hf hi
        have hlen2 : i < cpi.length := by
          by_contra hcon
          rw [List.getElem?_eq_none (by omega)] at hf
          cases hf
        rw [e2, hlow i (by omega)]
        exact hrec i f hf hi

theorem synthesized_records_first_witness :
    ∃ r, cpoll_wait 1 ex_native_read ex_two ⟨0, []⟩ 1 ex_events 2 0 = some r ∧
      r.events 0 = ⟨FD_CONNECT, 42⟩ ∧
      ∃ out, r.state.cp_data 1 = some out ∧ out[0]? = some ⟨7, ⟨0xB1, 42⟩⟩ := by
  have hs : (cpoll_wait 1 ex_native_read ex_two ⟨0, []⟩ 1 ex_events 2 0).map
      (fun r => r.ret) = some 2 := by decide
  cases hw : cpoll_wait 1 ex_native_read ex_two ⟨0, []⟩ 1 ex_events 2 0 with
  | none =>
    rw [hw] at hs
    cases hs
  | some r =>
    rw [hw] at hs
    simp only [Option.map_some', Option.some.injEq] at hs
    obtain ⟨_, k2, _, out, k4, _, _, k7, _⟩ :=
      synthesized_records_first 1 ex_native_read ex_two ⟨0, []⟩ 1 ex_events 2 0 r
        [⟨7, ⟨0xB1, 42⟩⟩, ⟨8, ⟨0x31, 43⟩⟩] (by decide) rfl (by simp) (by decide) hw
        (by rw [hs]; decide)
    exact ⟨r, rfl, k2 0 ⟨7, ⟨0xB1, 42⟩⟩ rfl (by decide), out, k4, k7 0 (by decide)⟩

/-! ## The order of the enumeration -/

theorem set_cleared_tags (cpi : cp_internal) (i : Nat) (f : fd_t) (h : cpi[i]? = some f) :
    tags_of (cpi.set i { fd := f.fd, event := { events := 0, data := f.event.data } })
      = tags_of cpi := by
  induction cpi generalizing i with
  | nil => simp at h
  | cons a l ih =>
    cases i with
    | zero =>
      simp only [List.getElem?_cons_zero, Option.some.injEq] at h
      subst h
      simp [tags_of]
    | succ i =>
      simp only [List.getElem?_cons_succ] at h
      have := ih i h
      simp only [tags_of] at this ⊢
      simp [this]

theorem pending_cons_report (native : Native) (tags : List Nat) (i : Nat) (rest : List Nat)
    (t ne : Nat) (ht : tags[i]? = some t) (he : native.enum_result i = some ne)
    (hz : ne ≠ 0) :
    pending_records native tags (i :: rest)
      = ⟨get_cp_mask ne, t⟩ :: pending_records native tags rest := by
  simp [pending_records, List.filterMap_cons, ht, he, hz]

theorem pending_cons_skip (native : Native) (tags : List Nat) (i : Nat) (rest : List Nat)
    (he : native.enum_result i = some 0) :
    pending_records native tags (i :: rest) = pending_records native tags rest := by
  simp only [pending_records, List.filterMap_cons, he]
  cases tags[i]? <;> simp

/-- The enumeration loop, when it is not left through `return -1`, appends the
records of the entries `i, i+1, ..` that have pending network events, in this
order, until `maxevents` results are there. -/
theorem wait_enum_records (native : Native) (maxevents : Int) (k i : Nat)
    (cpi : cp_internal) (events : Nat → cpoll_event) (n : Nat)
    (hk : i + k ≤ cpi.length) (hn : (n : Int) ≤ maxevents)
    (hf : (wait_enum native maxevents k i cpi events n).failed = false) :
    (wait_enum native maxevents k i cpi events n).num_ready
      = n + min (pending_records native (tags_of cpi) (List.range' i k)).length
          (maxevents.toNat - n) ∧
    ∀ (j : Nat) (x : cpoll_event),
      (pending_records native (tags_of cpi) (List.range' i k))[j]? = some x →
      j < maxevents.toNat - n →
      (wait_enum native maxevents k i cpi events n).events (n + j) = x := by
  induction k generalizing i cpi events n with
  | zero => simp [wait_enum, pending_records]
  | succ k ih =>
    have hlt : i < cpi.length := by omega
    have htag : (tags_of cpi)[i]? = some (cpi[i]).event.data := by
      simp [tags_of, List.getElem?_map, List.getElem?_eq_getElem hlt]
    simp only [wait_enum, List.getElem?_eq_getElem hlt] at hf ⊢
    rw [List.range'_succ]
    by_cases hc : (n : Int) < maxevents
    · rw [if_pos hc] at hf ⊢
      cases hne : native.enum_result i with
      | none =>
        rw [hne] at hf
        simp at hf
      | some ne =>
        rw [hne] at hf
        simp only at hf ⊢
        by_cases hz : ne ≠ 0
        · rw [if_pos hz] at hf ⊢
          rw [pending_cons_report native _ i _ _ ne htag hne hz]
          have hlen : ∀ c : cp_internal, c.length = cpi.length → i + 1 + k ≤ c.length := by
            intro c hcl
            omega
          have htags : tags_of (if (cpi[i]).event.events &&& CPOLLONESHOT ≠ 0 then
              cpi.set i { fd := (cpi[i]).fd, event := { events := 0, data := (cpi[i]).event.data } }
              else cpi) = tags_of cpi := by
            split
            · exact set_cleared_tags cpi i _ (List.getElem?_eq_getElem hlt)
            · rfl
          obtain ⟨a, b⟩ := ih (i + 1) _ _ (n + 1)
            (hlen _ (by split <;> simp)) (by push_cast; omega) hf
          rw [htags] at a b
          refine ⟨?_, ?_⟩
          · rw [a]
            simp only [List.length_cons]
            omega
          · intro j x hx hj
            cases j with
            | zero =>
              simp only [List.getElem?_cons_zero, Option.some.injEq] at hx
              subst hx
              simp only [Nat.add_zero]
              rw [wait_enum_keeps_low _ _ _ _ _ _ _ n (Nat.lt_succ_self n)]
              simp [buf_set]
            | succ j =>
              simp only [List.getElem?_cons_succ] at hx
              have := b j x hx (by omega)
              rw [show n + (j + 1) = n + 1 + j by omega]
              exact this
        · have hz0 : ne = 0 := by
            by_contra hcon
            exact hz hcon
          subst hz0
          rw [if_neg hz] at hf ⊢
          rw [pending_cons_skip native _ i _ hne]
          exact ih (i + 1) cpi events n (by omega) hn hf
    · rw [if_neg hc]
      have : maxevents.toNat - n = 0 := by omega
      rw [this]
      refine ⟨by simp, ?_⟩
      intro j x _ hj
      omega

theorem range_map_eq_append {α : Type} (ev : Nat → α) (k : Nat) (A B : List α)
    (hk : k = A.length + B.length) (hA : ∀ (j : Nat) (x : α), A[j]? = some x → ev j = x)
    (hB : ∀ (j : Nat) (x : α), B[j]? = some x → ev (A.length + j) = x) :
    (List.range k).map ev = A ++ B := by
  apply List.ext_getElem?
  intro j
  rw [List.getElem?_map]
  by_cases hj : j < k
  · rw [List.getElem?_range hj]
    by_cases hja : j < A.length
    · rw [List.getElem?_append_left hja, List.getElem?_eq_getElem hja]
      simp only [Option.map_some', Option.some.injEq]
      exact hA j _ (List.getElem?_eq_getElem hja)
    · have hjb : j - A.length < B.length := by omega
      rw [List.getElem?_append_right (by omega), List.getElem?_eq_getElem hjb]
      simp only [Option.map_some', Option.some.injEq]
      have := hB (j - A.length) _ (List.getElem?_eq_getElem hjb)
      rw [show A.length + (j - A.length) = j by omega] at this
      exact this
  · rw [List.getElem?_eq_none (by simp; omega), List.getElem?_eq_none (by simp; omega)]
    rfl

theorem synthesized_getElem? (cpi : cp_internal) (c j : Nat) (x : cpoll_event)
    (h : (synthesized cpi c)[j]? = some x) :
    j < c ∧ ∃ f, cpi[j]? = some f ∧ x = ⟨FD_CONNECT, f.event.data⟩ := by
  simp only [synthesized, List.getElem?_map, List.getElem?_take] at h
  by_cases hj : j < c
  · rw [if_pos hj] at h
    cases hf : cpi[j]? with
    | none => rw [hf] at h; cases h
    | some f =>
      rw [hf] at h
      simp only [Option.map_some', Option.some.injEq] at h
      exact ⟨hj, f, rfl, h.symm⟩
  · rw [if_neg hj] at h
    cases h

/-- C17 (as stated) fails: with two entries, both with pending network events,
a signal at index 1 and room for 4 results, the results are not the ones of the
order 1, 0: the entry at index 0 is not reported from its network events. -/
theorem enum_wraps_counterexample :
    ¬ (∀ (fuel : Nat) (native : Native) (s : State) (w : wsa_t) (cpfd : Int)
        (events : Nat → cpoll_event) (maxevents timeout : Int) (r : wait_t)
        (cpi : cp_internal) (e : Nat),
        0 ≤ cpfd → s.cp_data cpfd = some cpi → 1 ≤ maxevents → e < cpi.length →
        native.wait_result 0 = WSA_WAIT_EVENT_0 + e →
        cpoll_wait fuel native s w cpfd events maxevents timeout = some r → r.ret ≠ -1 →
        results_of r = claimed_results native cpi maxevents e) := by
  intro hall
  have hs : (cpoll_wait 1 ex_native_second ex_two ⟨0, []⟩ 1 ex_events 4 0).map
      (fun r => (r.ret, results_of r))
    = some (3, [⟨FD_CONNECT, 42⟩, ⟨FD_CONNECT, 43⟩, ⟨CPOLLIN, 43⟩]) := by decide
  cases hw : cpoll_wait 1 ex_native_second ex_two ⟨0, []⟩ 1 ex_events 4 0 with
  | none =>
    rw [hw] at hs
    cases hs
  | some r =>
    rw [hw] at hs
    simp only [Option.map_some', Option.some.injEq, Prod.mk.injEq] at hs
    have hc := hall 1 ex_native_second ex_two ⟨0, []⟩ 1 ex_events 4 0 r
      [⟨7, ⟨0xB1, 42⟩⟩, ⟨8, ⟨0x31, 43⟩⟩] 1 (by decide) rfl (by decide) (by decide) rfl hw
      (by rw [hs.1]; decide)
    rw [hs.2] at hc
    exact absurd hc (by decide)

/-- C17 (amended): when Winsock signals index `e` of a registry of `n` entries,
a `cpoll_wait` that returns a count hands out, after the synthesized records of
the first `min n maxevents` entries, one record for every entry at an index
`e, e+1, .., n-1` that has pending network events, in this order, until
`maxevents` results are there. Entries below `e` are not visited. The signal
value `WSA_WAIT_EVENT_0 + e` is a `DWORD` other than `WSA_WAIT_TIMEOUT`. -/
theorem enum_from_signalled_index (fuel : Nat) (native : Native) (s : State) (w : wsa_t)
    (cpfd : Int) (events : Nat → cpoll_event) (maxevents timeout : Int) (r : wait_t)
    (cpi : cp_internal) (e : Nat) (h0 : 0 ≤ cpfd) (hopen : s.cp_data cpfd = some cpi)
    (hmax : 1 ≤ maxevents) (he : e < cpi.length) (he32 : e < 4294967296)
    (hsig : native.wait_result 0 = WSA_WAIT_EVENT_0 + e)
    (hnt : WSA_WAIT_EVENT_0 + e ≠ WSA_WAIT_TIMEOUT)
    (h : cpoll_wait fuel native s w cpfd events maxevents timeout = some r)
    (hret : r.ret ≠ -1) :
    results_of r
      = synthesized cpi (min cpi.length maxevents.toNat) ++
          (pending_records native (tags_of cpi) (List.range' e (cpi.length - e))).take
            (maxevents.toNat - min cpi.length maxevents.toNat) := by
  have hne : cpi ≠ [] := by
    intro hnil
    rw [hnil] at he
    simp at he
  obtain ⟨a1, _, a3⟩ := wait_accept_records cpi maxevents cpi.length 0 events
    (by omega) (by push_cast; omega)
  simp only [Nat.zero_add] at a1 a3
  have hb : (((wait_accept cpi maxevents cpi.length 0 events 0).2 : Nat) : Int) ≤ maxevents := by
    rw [a1]
    omega
  rcases cpoll_wait_nonempty fuel native s w cpfd events maxevents timeout r cpi h0 hopen
    hne hmax h with ⟨ht, _, _, _⟩ | ⟨_, e2, _, e4⟩
  · rw [hsig] at ht
    exact absurd ht hnt
  · rw [hsig, enum_start_eq e he32] at e2 e4
    rcases e4 with ⟨_, e5⟩ | ⟨hf, e5⟩
    · exact absurd e5 hret
    · obtain ⟨c1, c2⟩ := wait_enum_records native maxevents (cpi.length - e) e cpi
        (wait_accept cpi maxevents cpi.length 0 events 0).1
        (wait_accept cpi maxevents cpi.length 0 events 0).2 (by omega) hb hf
      have low := fun (j : Nat) (hj : j < (wait_accept cpi maxevents cpi.length 0 events 0).2) =>
        wait_enum_keeps_low native maxevents (cpi.length - e) e cpi
          (wait_accept cpi maxevents cpi.length 0 events 0).1
          (wait_accept cpi maxevents cpi.length 0 events 0).2 j hj
      generalize wait_enum native maxevents (cpi.length - e) e cpi
        (wait_accept cpi maxevents cpi.length 0 events 0).1
        (wait_accept cpi maxevents cpi.length 0 events 0).2 = er at e2 e5 c1 c2 low
      generalize wait_accept cpi maxevents cpi.length 0 events 0 = a at a1 a3 c1 c2 low
      have hlenA : (synthesized cpi (min cpi.length maxevents.toNat)).length
          = min cpi.length maxevents.toNat := by
        simp only [synthesized, List.length_map, List.length_take]
        omega
      unfold results_of
      rw [e5, e2, Int.toNat_ofNat]
      apply range_map_eq_append
      · rw [c1, hlenA, List.length_take, a1]
        omega
      · intro j x hx
        obtain ⟨hj, f, hfj, rfl⟩ := synthesized_getElem? cpi _ j x hx
        rw [low j (by rw [a1]; exact hj)]
        exact a3 j f (Nat.zero_le _) hj hfj
      · intro j x hx
        rw [hlenA]
        rw [List.getElem?_take] at hx
        by_cases hj : j < maxevents.toNat - min cpi.length maxevents.toNat
        · rw [if_pos hj] at hx
          have := c2 j x hx (by rw [a1]; exact hj)
          rw [a1] at this
          exact this
        · rw [if_neg hj] at hx
          cases hx

theorem enum_from_signalled_index_witness :
    ∃ r, cpoll_wait 1 ex_native_second ex_two ⟨0, []⟩ 1 ex_events 4 0 = some r ∧
      results_of r = [⟨FD_CONNECT, 42⟩, ⟨FD_CONNECT, 43⟩, ⟨CPOLLIN, 43⟩] := by
  have hs : (cpoll_wait 1 ex_native_second ex_two ⟨0, []⟩ 1 ex_events 4 0).map
      (fun r => r.ret) = some 3 := by decide
  cases hw : cpoll_wait 1 ex_native_second ex_two ⟨0, []⟩ 1 ex_events 4 0 with
  | none =>
    rw [hw] at hs
    cases hs
  | some r =>
    rw [hw] at hs
    simp only [Option.map_some', Option.some.injEq] at hs
    have k := enum_from_signalled_index 1 ex_native_second ex_two ⟨0, []⟩ 1 ex_events 4 0 r
      [⟨7, ⟨0xB1, 42⟩⟩, ⟨8, ⟨0x31, 43⟩⟩] 1 (by decide) rfl (by decide) (by decide)
      (by decide) rfl (by decide) hw (by rw [hs]; decide)
    refine ⟨r, rfl, ?_⟩
    rw [k]
    decide

end Cpoll
